import Mathlib

/-!
# Verification of the nsecBunker authorization engine

A shallow embedding of the nsecBunker remote-signing daemon (TypeScript
source under src/), focused on:

* the ACL store and its lookup (src/daemon/lib/acl: checkIfPubkeyAllowed,
  requestToSigningConditionQuery, allowAllRequestsFromKey,
  rejectAllRequestsFromKey),
* the admin acl fan-out response handler
  (src/daemon/admin/index.ts: requestPermissionResponse),
* the web-approval polling loop (src/daemon/authorize.ts: urlAuthFlow),
* token validation and redemption (src/daemon/backend/index.ts:
  validateToken, applyToken),
* configuration persistence of keys (src/config/index.ts,
  src/commands/add.ts: saveEncrypted,
  src/daemon/admin/commands/create_account.ts: createAccountReal),
* the at-rest key encryption (src/config/keys.ts: encryptNsec /
  decryptNsec, i.e. SHA-256 passphrase digest + AES-256-CBC with PKCS#7
  padding and hex encoding, as provided by node crypto).

Modelling conventions:

* The Prisma/SQL store is modelled as in-memory lists in insertion order;
  findUnique/findFirst are List.find?, create appends at the end, which
  matches the default row ordering the daemon relies on.
* JavaScript promises are modelled as a PromiseState with first-settlement
  semantics: resolve/reject on an already settled promise is a no-op.
* Timestamps are Nat. JS strings are modelled as Lean String; where byte
  level behaviour matters (the crypto layer) strings are byte lists
  (List Nat, each < 256).
* Event kinds travel as decimal text in the database (the source always
  compares kind.toString()); scopes carry the kind as text or the literal
  "all", as in the data model.
-/

set_option autoImplicit false
set_option maxRecDepth 100000
set_option maxHeartbeats 1600000

namespace NsecBunker

instance : Std.Associative (fun x y : Nat => x ^^^ y) := ⟨Nat.xor_assoc⟩

instance : Std.Commutative (fun x y : Nat => x ^^^ y) := ⟨Nat.xor_comm⟩

/-! ## Promises (single-settlement) -/

/-- State of a JS promise: pending, resolved with a value, or rejected. -/
inductive PromiseState (α : Type) (β : Type) where
  | pending
  | resolved (value : α)
  | rejected (value : β)
deriving Repr, DecidableEq

/-- Calling resolve settles a pending promise; it is a no-op afterwards. -/
def resolveP {α β : Type} (p : PromiseState α β) (v : α) : PromiseState α β :=
  match p with
  | .pending => .resolved v
  | s => s

/-- Calling reject settles a pending promise; it is a no-op afterwards. -/
def rejectP {α β : Type} (p : PromiseState α β) (v : β) : PromiseState α β :=
  match p with
  | .pending => .rejected v
  | s => s

/-! ## ACL data model (Prisma tables KeyUser, SigningCondition, Policy,
PolicyRule, Token, Key) -/

/-- A KeyUser row: a remote pubkey bound to a key name. -/
structure KeyUser where
  id : Nat
  keyName : String
  userPubkey : String
  description : Option String := none
  revokedAt : Option Nat := none
deriving Repr, DecidableEq

/-- A SigningCondition row. `method` and `kind` are nullable columns:
`rejectAllRequestsFromKey` creates a row with neither set. -/
structure SigningCondition where
  keyUserId : Nat
  method : Option String := none
  kind : Option String := none
  allowed : Bool
deriving Repr, DecidableEq

/-- A PolicyRule row (kind stored as text, as created by create_new_policy). -/
structure PolicyRule where
  method : String
  kind : Option String := none
  maxUsageCount : Option Nat := none
  currentUsageCount : Nat := 0
deriving Repr, DecidableEq

/-- A Policy row together with its rules relation. -/
structure Policy where
  id : Nat
  name : String
  expiresAt : Option Nat := none
  rules : List PolicyRule := []
deriving Repr, DecidableEq

/-- A Token row. -/
structure Token where
  id : Nat
  token : String
  keyName : String
  clientName : Option String := none
  policyId : Option Nat := none
  expiresAt : Option Nat := none
  redeemedAt : Option Nat := none
  keyUserId : Option Nat := none
deriving Repr, DecidableEq

/-- The relational store. Lists are in insertion order; `nextKeyUserId`
models the autoincrementing KeyUser primary key. `keyRecords` is the Key
table (keyName, pubkey) written by create_account. -/
structure Db where
  keyUsers : List KeyUser := []
  conditions : List SigningCondition := []
  tokens : List Token := []
  policies : List Policy := []
  keyRecords : List (String × String) := []
  nextKeyUserId : Nat := 0
deriving Repr, DecidableEq

/-- prisma.keyUser.findUnique on the (keyName, userPubkey) unique key. -/
def findKeyUser (db : Db) (keyName userPubkey : String) : Option KeyUser :=
  db.keyUsers.find? (fun u => u.keyName == keyName && u.userPubkey == userPubkey)

/-- prisma.keyUser.upsert with an empty update branch: an existing row is
returned untouched, otherwise a fresh row is created. -/
def upsertKeyUser (db : Db) (keyName userPubkey : String)
    (description : Option String) : Db × KeyUser :=
  match findKeyUser db keyName userPubkey with
  | some u => (db, u)
  | none =>
    let u : KeyUser :=
      { id := db.nextKeyUserId, keyName := keyName, userPubkey := userPubkey,
        description := description }
    ({ db with keyUsers := db.keyUsers ++ [u],
               nextKeyUserId := db.nextKeyUserId + 1 }, u)

/-! ## ACL lookup (src/daemon/lib/acl, checkIfPubkeyAllowed) -/

/-- The condition query built by requestToSigningConditionQuery: a method
filter plus, for sign_event, a kind-IN filter. -/
structure SigningConditionQuery where
  method : String
  kindIn : Option (List String) := none
deriving Repr, DecidableEq

/-- requestToSigningConditionQuery. For sign_event the query selects rows
whose kind is IN the requested event kind rendered as text together with
the literal "all"; a payload without a kind contributes only "all" (an
undefined entry is dropped from the IN list). -/
def requestToSigningConditionQuery (method : String) (payloadKind : Option Nat) :
    SigningConditionQuery :=
  if method == "sign_event" then
    { method := method,
      kindIn := some (match payloadKind with
        | some k => [toString k, "all"]
        | none => ["all"]) }
  else
    { method := method }

/-- SQL semantics of the query: the method column must equal the filter,
and under a kind-IN filter a NULL kind column never matches. -/
def matchesQuery (q : SigningConditionQuery) (c : SigningCondition) : Bool :=
  c.method == some q.method &&
    (match q.kindIn with
     | none => true
     | some ks =>
       match c.kind with
       | some s => ks.contains s
       | none => false)

/-- checkIfPubkeyAllowed: none models a missing KeyUser or missing
condition (undefined), some true allow, some false deny. The second
revocation query of the source re-reads the same KeyUser row; in this
sequential model that is the row already at hand. -/
def checkIfPubkeyAllowed (db : Db) (keyName remotePubkey method : String)
    (payloadKind : Option Nat) : Option Bool :=
  match findKeyUser db keyName remotePubkey with
  | none => none
  | some keyUser =>
    let q := requestToSigningConditionQuery method payloadKind
    let explicitReject := db.conditions.find? (fun c =>
      c.keyUserId == keyUser.id && c.method == some "*" && c.allowed == false)
    match explicitReject with
    | some _ => some false
    | none =>
      match db.conditions.find? (fun c =>
          c.keyUserId == keyUser.id && matchesQuery q c) with
      | none => none
      | some signingCondition =>
        let allowed := signingCondition.allowed
        if allowed && keyUser.revokedAt.isSome then some false
        else some allowed

/-! ## Grants and denials -/

/-- The scope object optionally attached to a grant; `kind` is the event
kind as text or the literal "all". -/
structure AllowScope where
  kind : Option String := none
deriving Repr, DecidableEq

/-- The data fragment produced by allowScopeToSigningConditionQuery. A
scope kind is copied only when it is truthy (a nonempty string). -/
structure ConditionData where
  method : Option String := none
  kind : Option String := none
deriving Repr, DecidableEq

/-- allowScopeToSigningConditionQuery. -/
def allowScopeToSigningConditionQuery (method : String)
    (scope : Option AllowScope) : ConditionData :=
  match scope with
  | some s =>
    match s.kind with
    | some k =>
      if k != "" then { method := some method, kind := some k }
      else { method := some method }
    | none => { method := some method }
  | none => { method := some method }

/-- The SigningCondition created by allowAllRequestsFromKey: the fields of
the scope query, with the kind re-assigned from the raw scope by the
trailing spread of allowScope in the create data. -/
def grantCondition (keyUserId : Nat) (method : String)
    (allowScope : Option AllowScope) : SigningCondition :=
  let q := allowScopeToSigningConditionQuery method allowScope
  let kindFinal : Option String :=
    match allowScope with
    | some s =>
      match s.kind with
      | some k => some k
      | none => q.kind
    | none => q.kind
  { keyUserId := keyUserId, method := q.method, kind := kindFinal, allowed := true }

/-- allowAllRequestsFromKey: upsert the KeyUser (empty update), then create
an allowed=true SigningCondition from the scope query; the trailing spread
of the raw scope re-assigns the kind field when the scope carries one. The
`param` argument is accepted and ignored, as in the source. -/
def allowAllRequestsFromKey (db : Db) (remotePubkey keyName method : String)
    (param : Option String) (description : Option String)
    (allowScope : Option AllowScope) : Db :=
  let _ := param
  let res := upsertKeyUser db keyName remotePubkey description
  let db1 := res.1
  let upsertedUser := res.2
  { db1 with conditions := db1.conditions ++
      [grantCondition upsertedUser.id method allowScope] }

/-- rejectAllRequestsFromKey: upsert the KeyUser, then create a
SigningCondition with allowed=false and no other field (in particular no
method). -/
def rejectAllRequestsFromKey (db : Db) (remotePubkey keyName : String) : Db :=
  let res := upsertKeyUser db keyName remotePubkey none
  let db1 := res.1
  let upsertedUser := res.2
  { db1 with conditions := db1.conditions ++
      [{ keyUserId := upsertedUser.id, allowed := false }] }

/-! ## The spec-side decision order of the ACL lookup (claim C2) -/

/-- Three-valued ACL decision, as the specification words it. -/
inductive AclDecision where
  | allow
  | deny
  | unknown
deriving Repr, DecidableEq

/-- Render a decision as the tri-state value the implementation returns. -/
def AclDecision.toOptionBool : AclDecision → Option Bool
  | .allow => some true
  | .deny => some false
  | .unknown => none

/-- The method-matching test, written from the claim: for sign_event, a
row whose scope is the event kind as text or the literal "all"; for other
methods, a row matching the method. -/
def specMethodRowMatches (method : String) (payloadKind : Option Nat)
    (c : SigningCondition) : Bool :=
  if method == "sign_event" then
    c.method == some "sign_event" &&
      (match payloadKind with
       | some k => c.kind == some (toString k) || c.kind == some "all"
       | none => c.kind == some "all")
  else
    c.method == some method

/-- The decision order stated by the spec: no KeyUser gives unknown; any
wildcard deny row gives deny; a found method-matching row gives its
allow/deny unless the KeyUser is revoked, in which case deny; otherwise
unknown. -/
def aclLookupSpec (db : Db) (keyName remotePubkey method : String)
    (payloadKind : Option Nat) : AclDecision :=
  match findKeyUser db keyName remotePubkey with
  | none => .unknown
  | some keyUser =>
    if db.conditions.any (fun c =>
        c.keyUserId == keyUser.id && c.method == some "*" && c.allowed == false) then
      .deny
    else
      match db.conditions.find? (fun c =>
          c.keyUserId == keyUser.id && specMethodRowMatches method payloadKind c) with
      | some row =>
        if keyUser.revokedAt.isSome then .deny
        else if row.allowed then .allow else .deny
      | none => .unknown

/-! ## Admin acl fan-out response handler
(src/daemon/admin/index.ts, requestPermissionResponse) -/

/-- The parsed admin answer to an acl fan-out request: the JSON array
["always", description?, scope?], ["never", ...], any other parseable
value, or an unparseable result. -/
inductive AdminAclResponse where
  | always (description : Option String) (scope : Option AllowScope)
  | never
  | other
  | unparseable
deriving Repr, DecidableEq

/-- requestPermissionResponse. The suspended user request is the promise
(resolved with a boolean; the 10 second timer elsewhere resolves it with
none). On "always" the grant is installed and the promise resolves true.
The "never" arm of the source only logs "not implemented"; the default arm
only logs the raw result; a parse failure returns early. -/
def requestPermissionResponse (db : Db)
    (p : PromiseState (Option Bool) Unit)
    (remotePubkey keyName method : String) (param : Option String)
    (res : AdminAclResponse) : Db × PromiseState (Option Bool) Unit :=
  match res with
  | .unparseable => (db, p)
  | .always description scope =>
    (allowAllRequestsFromKey db remotePubkey keyName method param description scope,
     resolveP p (some true))
  | .never => (db, p)
  | .other => (db, p)

/-! ## Web-approval polling loop (src/daemon/authorize.ts, urlAuthFlow) -/

/-- A Request Ledger row (Prisma table Request). -/
structure RequestRow where
  id : Nat
  keyName : Option String := none
  requestId : String := ""
  remotePubkey : String := ""
  method : String := ""
  params : Option String := none
  allowed : Option Bool := none
  payload : Option String := none
deriving Repr, DecidableEq

/-- One tick of the 100 ms polling interval of urlAuthFlow, applied to the
current ledger row (none when the 60 s expiry deleted it), the interval
state (polling = the interval is still scheduled) and the suspended
promise. A deleted row clears the interval and returns. A settled row
clears the interval, rejects with the payload when allowed is false, and
then calls resolve with the params (a no-op when the reject already
settled the promise). -/
def urlAuthFlowPollStep (record : Option RequestRow) (polling : Bool)
    (p : PromiseState (Option String) (Option String)) :
    Bool × PromiseState (Option String) (Option String) :=
  if polling then
    match record with
    | none => (false, p)
    | some r =>
      match r.allowed with
      | none => (true, p)
      | some a =>
        let p1 := if a == false then rejectP p r.payload else p
        (false, resolveP p1 r.params)
  else
    (false, p)

/-- Iterated polling over a trace of ledger-row observations. -/
def urlAuthFlowPoll (observations : List (Option RequestRow)) (polling : Bool)
    (p : PromiseState (Option String) (Option String)) :
    Bool × PromiseState (Option String) (Option String) :=
  match observations with
  | [] => (polling, p)
  | o :: rest =>
    let s := urlAuthFlowPollStep o polling p
    urlAuthFlowPoll rest s.1 s.2

/-! ## Token validation and redemption (src/daemon/backend/index.ts) -/

/-- prisma.token.findUnique on the token column. -/
def findToken (db : Db) (token : String) : Option Token :=
  db.tokens.find? (fun t => t.token == token)

/-- prisma.policy.findUnique on the policy id (the include of the token
query). -/
def findPolicy (db : Db) (policyId : Nat) : Option Policy :=
  db.policies.find? (fun p => p.id == policyId)

/-- Backend.validateToken: the token must be nonempty, present,
unredeemed, carry a policy, and be unexpired. Error strings are those of
the source. -/
def validateToken (db : Db) (token : String) (now : Nat) :
    Except String (Token × Policy) :=
  if token == "" then .error "Invalid token"
  else
    match findToken db token with
    | none => .error "Token not found"
    | some tokenRecord =>
      if tokenRecord.redeemedAt.isSome then .error "Token already redeemed"
      else
        match tokenRecord.policyId.bind (findPolicy db) with
        | none => .error "Policy not found"
        | some policy =>
          match tokenRecord.expiresAt with
          | some e => if e < now then .error "Token expired" else .ok (tokenRecord, policy)
          | none => .ok (tokenRecord, policy)

/-- The SigningCondition created for one policy rule inside applyToken:
method from the rule, kind copied when truthy (nonempty). -/
def conditionOfRule (keyUserId : Nat) (rule : PolicyRule) : SigningCondition :=
  { keyUserId := keyUserId, method := some rule.method,
    kind := (match rule.kind with
             | some k => if k != "" then some k else none
             | none => none),
    allowed := true }

/-- The rule-materialization loop of applyToken. Each database write is a
numbered step; `failAt` injects a storage fault (spec section 7, Internal)
at that step, leaving the writes already performed in place. -/
def applyPolicyRules (failAt : Option Nat) (step : Nat) (keyUserId : Nat)
    (rules : List PolicyRule) (db : Db) : Except String Unit × Db :=
  match rules with
  | [] => (.ok (), db)
  | rule :: rest =>
    if failAt == some step then (.error "storage fault", db)
    else
      applyPolicyRules failAt (step + 1) keyUserId rest
        { db with conditions := db.conditions ++ [conditionOfRule keyUserId rule] }

/-- Mark a token row redeemed (prisma.token.update by id). -/
def markTokenRedeemed (db : Db) (tokenId : Nat) (now : Nat) (keyUserId : Nat) : Db :=
  { db with tokens := db.tokens.map (fun t =>
      if t.id == tokenId then
        { t with redeemedAt := some now, keyUserId := some keyUserId }
      else t) }

/-- Backend.applyToken. Writes run sequentially, with no surrounding
transaction: step 0 is the KeyUser upsert, step 1 the baseline connect
allow, steps 2 .. 2+n-1 the n policy-rule conditions, step 2+n the
redeemedAt mark on the token. `failAt := some k` injects a storage fault
at write k; `failAt := none` is the fault-free run. The Db returned
alongside an error is the store as left behind by the failure. -/
def applyToken (failAt : Option Nat) (db : Db) (userPubkey token : String)
    (now : Nat) : Except String Unit × Db :=
  match validateToken db token now with
  | .error e => (.error e, db)
  | .ok (tokenRecord, policy) =>
    if failAt == some 0 then (.error "storage fault", db)
    else
      let res := upsertKeyUser db tokenRecord.keyName userPubkey tokenRecord.clientName
      let db1 := res.1
      let upsertedUser := res.2
      if failAt == some 1 then (.error "storage fault", db1)
      else
        let db2 := { db1 with conditions := db1.conditions ++
          [{ keyUserId := upsertedUser.id, method := some "connect", allowed := true }] }
        let r := applyPolicyRules failAt 2 upsertedUser.id policy.rules db2
        match r.1 with
        | .error e => (.error e, r.2)
        | .ok _ =>
          if failAt == some (2 + policy.rules.length) then (.error "storage fault", r.2)
          else (.ok (), markTokenRedeemed r.2 tokenRecord.id now upsertedUser.id)

/-! ## Configuration persistence (src/config, src/commands/add.ts,
create_account) -/

/-- An entry of the keys object of nsecbunker.json: either the encrypted
blob iv/data (hex strings) or a raw unencrypted private key, both formats
the config documents (keys.$keyId.iv + data, or keys.$keyId.key). -/
inductive KeyEntry where
  | encrypted (iv data : String)
  | plain (key : String)
deriving Repr, DecidableEq

/-- Per-domain configuration (the slice the account flow reads). -/
structure DomainCfg where
  nip05 : String
  hasWallet : Bool := false
deriving Repr, DecidableEq

/-- The configuration document (the slice the modelled operations read
and write). -/
structure Config where
  keys : List (String × KeyEntry) := []
  domains : List (String × DomainCfg) := []
  nostrRelays : List String := []
  baseUrl : Option String := none
deriving Repr, DecidableEq

/-- A nip05 identity file: names plus nip46 relay hints. -/
structure Nip05File where
  names : List (String × String) := []
  nip46 : List (String × List String) := []
deriving Repr, DecidableEq

/-- The persistent files the daemon touches: the configuration file and
the per-domain identity files, keyed by path. -/
structure FileSystem where
  configFile : Option Config := none
  nip05Files : List (String × Nip05File) := []
deriving Repr, DecidableEq

/-- Insert or replace an association-list binding (a JS object assignment). -/
def upsertAssoc {α : Type} (l : List (String × α)) (k : String) (v : α) :
    List (String × α) :=
  match l with
  | [] => [(k, v)]
  | (k0, v0) :: rest =>
    if k0 == k then (k, v) :: rest else (k0, v0) :: upsertAssoc rest k v

/-- Association-list lookup (a JS object read). -/
def lookupAssoc {α : Type} (l : List (String × α)) (k : String) : Option α :=
  match l with
  | [] => none
  | (k0, v0) :: rest => if k0 == k then some v0 else lookupAssoc rest k

/-- getCurrentConfig: parse the file, or fall back to the default document
when it is absent. -/
def getCurrentConfig (fs : FileSystem) : Config :=
  match fs.configFile with
  | some cfg => cfg
  | none => {}

/-- saveCurrentConfig: rewrite the configuration file whole. -/
def saveCurrentConfig (fs : FileSystem) (cfg : Config) : FileSystem :=
  { fs with configFile := some cfg }

/-! ## At-rest key encryption (src/config/keys.ts)

encryptNsec / decryptNsec call node crypto:
`createHash(sha256)` over the passphrase for the key, and
`aes-256-cbc` with PKCS#7 padding over the nsec, hex-encoded output.
Both primitives are embedded executably below. Strings at this layer are
byte lists (each < 256); the fresh random IV of encryptNsec is an
explicit argument. -/

/-- Truncate to a 32-bit word. -/
def w32 (x : Nat) : Nat := x % 4294967296

/-- 32-bit rotate right. -/
def rotr32 (n x : Nat) : Nat := w32 ((x >>> n) ||| (x <<< (32 - n)))

def sha256K : List Nat := [
  1116352408, 1899447441, 3049323471, 3921009573, 961987163, 1508970993, 2453635748, 2870763221,
  3624381080, 310598401, 607225278, 1426881987, 1925078388, 2162078206, 2614888103, 3248222580,
  3835390401, 4022224774, 264347078, 604807628, 770255983, 1249150122, 1555081692, 1996064986,
  2554220882, 2821834349, 2952996808, 3210313671, 3336571891, 3584528711, 113926993, 338241895,
  666307205, 773529912, 1294757372, 1396182291, 1695183700, 1986661051, 2177026350, 2456956037,
  2730485921, 2820302411, 3259730800, 3345764771, 3516065817, 3600352804, 4094571909, 275423344,
  430227734, 506948616, 659060556, 883997877, 958139571, 1322822218, 1537002063, 1747873779,
  1955562222, 2024104815, 2227730452, 2361852424, 2428436474, 2756734187, 3204031479, 3329325298]

def sha256H0 : List Nat :=
  [1779033703, 3144134277, 1013904242, 2773480762,
   1359893119, 2600822924, 528734635, 1541459225]

/-- SHA-256 message padding: 0x80, zeros, 64-bit big-endian bit length. -/
def sha256Pad (msg : List Nat) : List Nat :=
  let lenBits := msg.length * 8
  let zeros := (119 - msg.length % 64) % 64
  msg ++ [128] ++ List.replicate zeros 0 ++
    [(lenBits >>> 56) % 256, (lenBits >>> 48) % 256, (lenBits >>> 40) % 256,
     (lenBits >>> 32) % 256, (lenBits >>> 24) % 256, (lenBits >>> 16) % 256,
     (lenBits >>> 8) % 256, lenBits % 256]

/-- Big-endian bytes to 32-bit words. -/
def bytesToWordsBE : List Nat → List Nat
  | a :: b :: c :: d :: rest =>
    (a * 16777216 + b * 65536 + c * 256 + d) :: bytesToWordsBE rest
  | _ => []

/-- Extend the 16 message-schedule words by n further words. -/
def sha256Extend (ws : List Nat) : Nat → List Nat
  | 0 => ws
  | n + 1 =>
    let prior := sha256Extend ws n
    let i := prior.length
    let s0 := rotr32 7 (prior.getD (i - 15) 0) ^^^ rotr32 18 (prior.getD (i - 15) 0) ^^^
      (prior.getD (i - 15) 0 >>> 3)
    let s1 := rotr32 17 (prior.getD (i - 2) 0) ^^^ rotr32 19 (prior.getD (i - 2) 0) ^^^
      (prior.getD (i - 2) 0 >>> 10)
    prior ++ [w32 (prior.getD (i - 16) 0 + s0 + prior.getD (i - 7) 0 + s1)]

/-- One SHA-256 compression round. -/
def sha256Round (st : List Nat) (k w : Nat) : List Nat :=
  match st with
  | [a, b, c, d, e, f, g, h] =>
    let s1 := rotr32 6 e ^^^ rotr32 11 e ^^^ rotr32 25 e
    let ch := (e &&& f) ^^^ ((e ^^^ 4294967295) &&& g)
    let t1 := w32 (h + s1 + ch + k + w)
    let s0 := rotr32 2 a ^^^ rotr32 13 a ^^^ rotr32 22 a
    let mj := (a &&& b) ^^^ (a &&& c) ^^^ (b &&& c)
    let t2 := w32 (s0 + mj)
    [w32 (t1 + t2), a, b, c, w32 (d + t1), e, f, g]
  | _ => st

/-- Compress one 64-byte chunk into the running hash state. -/
def sha256Compress (h : List Nat) (chunk : List Nat) : List Nat :=
  let ws := sha256Extend (bytesToWordsBE chunk) 48
  let st := (List.range 64).foldl
    (fun st i => sha256Round st (sha256K.getD i 0) (ws.getD i 0)) h
  List.zipWith (fun x y => w32 (x + y)) h st

/-- Split a byte list into chunks of n bytes (fuel variant; the fuel is
the list length, which suffices for n > 0). -/
def chunksOfFuel (n : Nat) : Nat → List Nat → List (List Nat)
  | 0, _ => []
  | _, [] => []
  | fuel + 1, x :: xs =>
    (x :: xs).take n :: chunksOfFuel n fuel ((x :: xs).drop n)

def chunksOf (n : Nat) (l : List Nat) : List (List Nat) :=
  chunksOfFuel n l.length l

/-- SHA-256 of a byte list, as a 32-byte digest. -/
def sha256 (msg : List Nat) : List Nat :=
  let hs := (chunksOf 64 (sha256Pad msg)).foldl sha256Compress sha256H0
  (hs.map (fun w => [(w >>> 24) % 256, (w >>> 16) % 256, (w >>> 8) % 256, w % 256])).flatten

/-! ### AES-256 -/

def sboxTable : List Nat := [
  99, 124, 119, 123, 242, 107, 111, 197, 48, 1, 103, 43, 254, 215, 171, 118,
  202, 130, 201, 125, 250, 89, 71, 240, 173, 212, 162, 175, 156, 164, 114, 192,
  183, 253, 147, 38, 54, 63, 247, 204, 52, 165, 229, 241, 113, 216, 49, 21,
  4, 199, 35, 195, 24, 150, 5, 154, 7, 18, 128, 226, 235, 39, 178, 117,
  9, 131, 44, 26, 27, 110, 90, 160, 82, 59, 214, 179, 41, 227, 47, 132,
  83, 209, 0, 237, 32, 252, 177, 91, 106, 203, 190, 57, 74, 76, 88, 207,
  208, 239, 170, 251, 67, 77, 51, 133, 69, 249, 2, 127, 80, 60, 159, 168,
  81, 163, 64, 143, 146, 157, 56, 245, 188, 182, 218, 33, 16, 255, 243, 210,
  205, 12, 19, 236, 95, 151, 68, 23, 196, 167, 126, 61, 100, 93, 25, 115,
  96, 129, 79, 220, 34, 42, 144, 136, 70, 238, 184, 20, 222, 94, 11, 219,
  224, 50, 58, 10, 73, 6, 36, 92, 194, 211, 172, 98, 145, 149, 228, 121,
  231, 200, 55, 109, 141, 213, 78, 169, 108, 86, 244, 234, 101, 122, 174, 8,
  186, 120, 37, 46, 28, 166, 180, 198, 232, 221, 116, 31, 75, 189, 139, 138,
  112, 62, 181, 102, 72, 3, 246, 14, 97, 53, 87, 185, 134, 193, 29, 158,
  225, 248, 152, 17, 105, 217, 142, 148, 155, 30, 135, 233, 206, 85, 40, 223,
  140, 161, 137, 13, 191, 230, 66, 104, 65, 153, 45, 15, 176, 84, 187, 22]

def invSboxTable : List Nat := [
  82, 9, 106, 213, 48, 54, 165, 56, 191, 64, 163, 158, 129, 243, 215, 251,
  124, 227, 57, 130, 155, 47, 255, 135, 52, 142, 67, 68, 196, 222, 233, 203,
  84, 123, 148, 50, 166, 194, 35, 61, 238, 76, 149, 11, 66, 250, 195, 78,
  8, 46, 161, 102, 40, 217, 36, 178, 118, 91, 162, 73, 109, 139, 209, 37,
  114, 248, 246, 100, 134, 104, 152, 22, 212, 164, 92, 204, 93, 101, 182, 146,
  108, 112, 72, 80, 253, 237, 185, 218, 94, 21, 70, 87, 167, 141, 157, 132,
  144, 216, 171, 0, 140, 188, 211, 10, 247, 228, 88, 5, 184, 179, 69, 6,
  208, 44, 30, 143, 202, 63, 15, 2, 193, 175, 189, 3, 1, 19, 138, 107,
  58, 145, 17, 65, 79, 103, 220, 234, 151, 242, 207, 206, 240, 180, 230, 115,
  150, 172, 116, 34, 231, 173, 53, 133, 226, 249, 55, 232, 28, 117, 223, 110,
  71, 241, 26, 113, 29, 41, 197, 137, 111, 183, 98, 14, 170, 24, 190, 27,
  252, 86, 62, 75, 198, 210, 121, 32, 154, 219, 192, 254, 120, 205, 90, 244,
  31, 221, 168, 51, 136, 7, 199, 49, 177, 18, 16, 89, 39, 128, 236, 95,
  96, 81, 127, 169, 25, 181, 74, 13, 45, 229, 122, 159, 147, 201, 156, 239,
  160, 224, 59, 77, 174, 42, 245, 176, 200, 235, 187, 60, 131, 83, 153, 97,
  23, 43, 4, 126, 186, 119, 214, 38, 225, 105, 20, 99, 85, 33, 12, 125]

def sbox (x : Nat) : Nat := sboxTable.getD (x % 256) 0

def invSbox (x : Nat) : Nat := invSboxTable.getD (x % 256) 0

/-- Pointwise xor of two byte lists. -/
def xorBytes (a b : List Nat) : List Nat := List.zipWith (fun x y => x ^^^ y) a b

def subBytes (s : List Nat) : List Nat := s.map sbox

def invSubBytes (s : List Nat) : List Nat := s.map invSbox

/-- ShiftRows on the 16-byte column-major state. -/
def shiftRows : List Nat → List Nat
  | [b0, b1, b2, b3, b4, b5, b6, b7, b8, b9, b10, b11, b12, b13, b14, b15] =>
    [b0, b5, b10, b15, b4, b9, b14, b3, b8, b13, b2, b7, b12, b1, b6, b11]
  | s => s

def invShiftRows : List Nat → List Nat
  | [b0, b1, b2, b3, b4, b5, b6, b7, b8, b9, b10, b11, b12, b13, b14, b15] =>
    [b0, b13, b10, b7, b4, b1, b14, b11, b8, b5, b2, b15, b12, b9, b6, b3]
  | s => s

/-- Multiplication by x in GF(2^8) modulo the AES polynomial. -/
def xtime (x : Nat) : Nat :=
  if 128 <= x then ((2 * x) % 256) ^^^ 27 else 2 * x

def gm3 (x : Nat) : Nat := xtime x ^^^ x
def gm4 (x : Nat) : Nat := xtime (xtime x)
def gm8 (x : Nat) : Nat := xtime (gm4 x)
def gm9 (x : Nat) : Nat := gm8 x ^^^ x
def gm11 (x : Nat) : Nat := gm8 x ^^^ xtime x ^^^ x
def gm13 (x : Nat) : Nat := gm8 x ^^^ gm4 x ^^^ x
def gm14 (x : Nat) : Nat := gm8 x ^^^ gm4 x ^^^ xtime x

/-- MixColumns on one column. -/
def mixCol (a b c d : Nat) : List Nat :=
  [xtime a ^^^ gm3 b ^^^ c ^^^ d,
   a ^^^ xtime b ^^^ gm3 c ^^^ d,
   a ^^^ b ^^^ xtime c ^^^ gm3 d,
   gm3 a ^^^ b ^^^ c ^^^ xtime d]

/-- Inverse MixColumns on one column. -/
def invMixCol (a b c d : Nat) : List Nat :=
  [gm14 a ^^^ gm11 b ^^^ gm13 c ^^^ gm9 d,
   gm9 a ^^^ gm14 b ^^^ gm11 c ^^^ gm13 d,
   gm13 a ^^^ gm9 b ^^^ gm14 c ^^^ gm11 d,
   gm11 a ^^^ gm13 b ^^^ gm9 c ^^^ gm14 d]

def mixColumns : List Nat → List Nat
  | [b0, b1, b2, b3, b4, b5, b6, b7, b8, b9, b10, b11, b12, b13, b14, b15] =>
    mixCol b0 b1 b2 b3 ++ mixCol b4 b5 b6 b7 ++ mixCol b8 b9 b10 b11 ++
      mixCol b12 b13 b14 b15
  | s => s

def invMixColumns : List Nat → List Nat
  | [b0, b1, b2, b3, b4, b5, b6, b7, b8, b9, b10, b11, b12, b13, b14, b15] =>
    invMixCol b0 b1 b2 b3 ++ invMixCol b4 b5 b6 b7 ++ invMixCol b8 b9 b10 b11 ++
      invMixCol b12 b13 b14 b15
  | s => s

/-! ### AES-256 key schedule -/

def subWord (w : List Nat) : List Nat := w.map sbox

def rotWord : List Nat → List Nat
  | [a, b, c, d] => [b, c, d, a]
  | w => w

def rconTable : List Nat := [0, 1, 2, 4, 8, 16, 32, 64]

/-- The next four-byte word of the AES-256 key schedule. -/
def nextWord (ws : List (List Nat)) : List Nat :=
  let i := ws.length
  let temp := ws.getD (i - 1) []
  let temp2 :=
    if i % 8 == 0 then
      xorBytes (subWord (rotWord temp)) [rconTable.getD (i / 8) 0, 0, 0, 0]
    else if i % 8 == 4 then subWord temp
    else temp
  xorBytes (ws.getD (i - 8) []) temp2

def keyExpandAux (ws : List (List Nat)) : Nat → List (List Nat)
  | 0 => ws
  | n + 1 =>
    let prior := keyExpandAux ws n
    prior ++ [nextWord prior]

/-- The 60 schedule words of AES-256 from a 32-byte key. -/
def keyWords (key : List Nat) : List (List Nat) :=
  keyExpandAux (chunksOf 4 key) 52

/-- Round keys as 16-byte blocks: words 4r .. 4r+3. -/
def roundKey (ws : List (List Nat)) (r : Nat) : List Nat :=
  ws.getD (4 * r) [] ++ ws.getD (4 * r + 1) [] ++ ws.getD (4 * r + 2) [] ++
    ws.getD (4 * r + 3) []

/-- First round key, the 13 middle round keys, and the last round key. -/
def aesKeyTriple (key : List Nat) : List Nat × List (List Nat) × List Nat :=
  let ws := keyWords key
  (roundKey ws 0, (List.range 13).map (fun i => roundKey ws (i + 1)), roundKey ws 14)

/-! ### AES-256 block encryption and decryption -/

/-- The middle rounds of encryption, one per middle round key. -/
def encRounds : List (List Nat) → List Nat → List Nat
  | [], s => s
  | rk :: rks, s => encRounds rks (xorBytes (mixColumns (shiftRows (subBytes s))) rk)

def aesEncryptBlock (k0 : List Nat) (mids : List (List Nat)) (kLast : List Nat)
    (b : List Nat) : List Nat :=
  xorBytes (shiftRows (subBytes (encRounds mids (xorBytes b k0)))) kLast

/-- The middle rounds of decryption, consuming the middle round keys in
reverse order. -/
def decRounds : List (List Nat) → List Nat → List Nat
  | [], s => s
  | rk :: rks, s =>
    decRounds rks (invSubBytes (invShiftRows (invMixColumns (xorBytes s rk))))

def aesDecryptBlock (k0 : List Nat) (mids : List (List Nat)) (kLast : List Nat)
    (c : List Nat) : List Nat :=
  xorBytes (decRounds mids.reverse (invSubBytes (invShiftRows (xorBytes c kLast)))) k0

/-! ### CBC mode, PKCS#7 padding, hex encoding -/

def cbcEncBlocks (enc : List Nat → List Nat) : List Nat → List (List Nat) → List (List Nat)
  | _, [] => []
  | prev, b :: bs =>
    let c := enc (xorBytes b prev)
    c :: cbcEncBlocks enc c bs

def cbcDecBlocks (dec : List Nat → List Nat) : List Nat → List (List Nat) → List (List Nat)
  | _, [] => []
  | prev, c :: cs => xorBytes (dec c) prev :: cbcDecBlocks dec c cs

/-- PKCS#7 padding to a multiple of 16 bytes (always appends 1..16 bytes). -/
def pad16 (l : List Nat) : List Nat :=
  let n := 16 - l.length % 16
  l ++ List.replicate n n

/-- PKCS#7 unpadding with full validation, as OpenSSL performs it: the
final byte names the padding length, which must be 1..16 and fully
present, and every padding byte must equal it. -/
def unpad16 (l : List Nat) : Except String (List Nat) :=
  match l.getLast? with
  | none => .error "bad decrypt"
  | some n =>
    if n = 0 || 16 < n || l.length < n then .error "bad decrypt"
    else if (l.drop (l.length - n)).all (fun b => b == n) then
      .ok (l.take (l.length - n))
    else .error "bad decrypt"

def hexDigitChar (n : Nat) : Char :=
  if n % 16 < 10 then Char.ofNat (48 + n % 16) else Char.ofNat (87 + n % 16)

def bytesToHex (bs : List Nat) : String :=
  String.mk ((bs.map (fun b => [hexDigitChar (b / 16), hexDigitChar (b % 16)])).flatten)

def hexDigitVal (c : Char) : Option Nat :=
  if 48 ≤ c.toNat ∧ c.toNat ≤ 57 then some (c.toNat - 48)
  else if 97 ≤ c.toNat ∧ c.toNat ≤ 102 then some (c.toNat - 87)
  else if 65 ≤ c.toNat ∧ c.toNat ≤ 70 then some (c.toNat - 55)
  else none

/-- Hex decoding of character pairs; parsing stops at the first invalid
pair, as Buffer.from(s, hex) does. -/
def hexCharsToBytes : List Char → List Nat
  | c1 :: c2 :: rest =>
    (match hexDigitVal c1, hexDigitVal c2 with
     | some h, some lo => (16 * h + lo) :: hexCharsToBytes rest
     | _, _ => [])
  | _ => []

def hexToBytes (s : String) : List Nat := hexCharsToBytes s.data

/-! ### encryptNsec / decryptNsec -/

/-- The encrypted envelope returned by encryptNsec. -/
structure EncryptedNsec where
  iv : String
  data : String
deriving Repr, DecidableEq

def aesCbcEncrypt (key iv pt : List Nat) : List Nat :=
  let t := aesKeyTriple key
  ((cbcEncBlocks (aesEncryptBlock t.1 t.2.1 t.2.2) iv (chunksOf 16 (pad16 pt)))).flatten

/-- encryptNsec: aes-256-cbc under the SHA-256 digest of the passphrase,
with the given 16 random IV bytes, hex-encoded. -/
def encryptNsec (nsec passphrase ivBytes : List Nat) : EncryptedNsec :=
  let key := sha256 passphrase
  { iv := bytesToHex ivBytes, data := bytesToHex (aesCbcEncrypt key ivBytes nsec) }

def aesCbcDecrypt (key iv ct : List Nat) : Except String (List Nat) :=
  if ct.length == 0 || ct.length % 16 != 0 then .error "wrong final block length"
  else
    let t := aesKeyTriple key
    unpad16 ((cbcDecBlocks (aesDecryptBlock t.1 t.2.1 t.2.2) iv (chunksOf 16 ct)).flatten)

/-- decryptNsec: the inverse direction; decryption or padding errors
surface as thrown errors. -/
def decryptNsec (iv data : String) (passphrase : List Nat) : Except String (List Nat) :=
  aesCbcDecrypt (sha256 passphrase) (hexToBytes iv) (hexToBytes data)

/-! ## Key persistence operations (src/commands/add.ts saveEncrypted,
create_account createAccountReal) -/

/-- Byte list of an ASCII string. -/
def strBytes (s : String) : List Nat := s.data.map Char.toNat

/-- saveEncrypted: encrypt the nsec under the passphrase with a fresh IV
and store the iv/data blob under the key name in the config file. Used by
the add command and by create_new_key. -/
def saveEncrypted (fs : FileSystem) (nsec passphrase name : String)
    (ivBytes : List Nat) : FileSystem :=
  let e := encryptNsec (strBytes nsec) (strBytes passphrase) ivBytes
  let currentConfig := getCurrentConfig fs
  saveCurrentConfig fs
    { currentConfig with
        keys := upsertAssoc currentConfig.keys name (KeyEntry.encrypted e.iv e.data) }

/-- createAccountReal, restricted to its persistent effects: the
validations, the identity-file update, the config write that stores the
generated account key, the Key row, and the four initial grants to the
creating client. Profile publication and wallet provisioning are external
collaborators with no bunker-side persistent state. The freshly generated
keypair enters as the privateKey/pubkey arguments. -/
def createAccountReal (fs : FileSystem) (db : Db) (reqPubkey : String)
    (username domain : String) (privateKey pubkey : String) :
    FileSystem × Db × Except String String :=
  let currentConfig := getCurrentConfig fs
  if currentConfig.domains = [] then (fs, db, .error "no domains configured")
  else if username = "" then (fs, db, .error "username is required")
  else
    match lookupAssoc currentConfig.domains domain with
    | none => (fs, db, .error "domain not found")
    | some domainConfig =>
      let nip05File := (lookupAssoc fs.nip05Files domainConfig.nip05).getD {}
      if (lookupAssoc nip05File.names username).isSome then
        (fs, db, .error "username already exists")
      else
        let keyName := username ++ "@" ++ domain
        let newFile : Nip05File :=
          { names := upsertAssoc nip05File.names username pubkey,
            nip46 := upsertAssoc nip05File.nip46 pubkey currentConfig.nostrRelays }
        let fs1 := { fs with
          nip05Files := upsertAssoc fs.nip05Files domainConfig.nip05 newFile }
        let cfg1 := { currentConfig with
          keys := upsertAssoc currentConfig.keys keyName (KeyEntry.plain privateKey) }
        let fs2 := saveCurrentConfig fs1 cfg1
        let db1 := { db with keyRecords := db.keyRecords ++ [(keyName, pubkey)] }
        let db2 := allowAllRequestsFromKey db1 reqPubkey keyName "connect" none none none
        let db3 := allowAllRequestsFromKey db2 reqPubkey keyName "sign_event" none none
          (some { kind := some "all" })
        let db4 := allowAllRequestsFromKey db3 reqPubkey keyName "encrypt" none none none
        let db5 := allowAllRequestsFromKey db4 reqPubkey keyName "decrypt" none none none
        (fs2, db5, .ok pubkey)

/-! ## Sequences of ACL-writing operations (claim C10) -/

/-- The ACL-writing operations of the grant and token-redemption paths. -/
inductive AclOp where
  | grant (remotePubkey keyName method : String) (param : Option String)
      (description : Option String) (scope : Option AllowScope)
  | redeem (userPubkey token : String) (now : Nat)
deriving Repr, DecidableEq

def applyAclOp (db : Db) : AclOp → Db
  | .grant rp kn m p d s => allowAllRequestsFromKey db rp kn m p d s
  | .redeem up tok now => (applyToken none db up tok now).2

def applyAclOps (db : Db) (ops : List AclOp) : Db := ops.foldl applyAclOp db

/-- The KeyUser row created by the upsert of a grant for a previously
unknown (keyName, remotePubkey) pair. -/
def freshKeyUser (db : Db) (kn rp : String) (desc : Option String) : KeyUser :=
  { id := db.nextKeyUserId, keyName := kn, userPubkey := rp, description := desc }

/-- The lookup arguments match a granted scope (used to state the amended
claim C5): for sign_event the grant must carry a truthy (nonempty) scope
kind covering the requested event kind, either the literal "all" or the
kind rendered as text. Other methods ignore the scope. -/
def scopeMatches (method : String) (scope : Option AllowScope)
    (payloadKind : Option Nat) : Prop :=
  method = "sign_event" →
    ∃ s k, scope = some s ∧ s.kind = some k ∧ k ≠ "" ∧
      (k = "all" ∨ ∃ n, payloadKind = some n ∧ k = toString n)


/-- Every entry of the list is a byte. -/
def BytesLt (l : List Nat) : Prop := ∀ b ∈ l, b < 256

instance (l : List Nat) : Decidable (BytesLt l) :=
  inferInstanceAs (Decidable (∀ b ∈ l, b < 256))

/-- A 16-byte block. -/
def Block16 (l : List Nat) : Prop := l.length = 16 ∧ BytesLt l

/-- The key schedule invariant: at least eight words, each four bytes. -/
def GoodWords (ws : List (List Nat)) : Prop :=
  8 ≤ ws.length ∧ ∀ w ∈ ws, w.length = 4 ∧ BytesLt w

/-! ### Concrete data for the wrong-passphrase counterexample -/

def c9nsec : List Nat :=
  strBytes "nsec1vl029mgpspedva04g90vltkh6fvh240zqtv9k0t9af8935ke9laqsnlfe5"

def c9pass : List Nat := strBytes "correct horse battery staple"

def c9wrong : List Nat := strBytes "wrong203"

def c9ivBytes : List Nat := List.range 16

/-- What aes-256-cbc under sha256("wrong203") makes of that ciphertext:
garbage bytes whose final byte happens to read as a valid PKCS#7 pad. -/
def c9garbage : List Nat := [160, 161, 112, 150, 104, 245, 36, 167, 102, 107,
  127, 103, 194, 69, 28, 83, 193, 131, 127, 147, 127, 237, 59, 150, 127, 86,
  20, 186, 77, 13, 20, 65, 189, 10, 159, 89, 255, 152, 252, 56, 193, 199, 35,
  146, 240, 3, 174, 2, 74, 24, 150, 181, 94, 8, 172, 148, 202, 215, 174, 150,
  81, 66, 36]

/-! # Theorems -/

/-! ## Claim C2: the decision order of the ACL lookup -/

/-- The code query and the spec wording select the same rows. -/
theorem matchesQuery_eq_spec (m : String) (pk : Option Nat) (c : SigningCondition) :
    matchesQuery (requestToSigningConditionQuery m pk) c = specMethodRowMatches m pk c := by
  unfold matchesQuery requestToSigningConditionQuery specMethodRowMatches
  cases hm : m == "sign_event"
  · simp [hm]
  · have hm2 : m = "sign_event" := by simpa using hm
    subst hm2
    cases pk with
    | none => cases hk : c.kind <;> simp [hk, List.contains_cons, beq_eq_decide]
    | some k => cases hk : c.kind <;> simp [hk, List.contains_cons, beq_eq_decide]

/-- C2: for every store and every (keyName, remotePubkey, method, payload),
checkIfPubkeyAllowed follows the specified decision order: unknown without
a KeyUser row; deny on any wildcard deny row; otherwise the first
method-matching row decides, with deny overriding an allow for a revoked
KeyUser; otherwise unknown. -/
theorem checkIfPubkeyAllowed_follows_spec_order (db : Db) (kn rp m : String)
    (pk : Option Nat) :
    checkIfPubkeyAllowed db kn rp m pk = (aclLookupSpec db kn rp m pk).toOptionBool := by
  unfold checkIfPubkeyAllowed aclLookupSpec
  cases hku : findKeyUser db kn rp with
  | none => rfl
  | some keyUser =>
    have hq : (fun c : SigningCondition => c.keyUserId == keyUser.id &&
          matchesQuery (requestToSigningConditionQuery m pk) c)
        = (fun c : SigningCondition => c.keyUserId == keyUser.id &&
          specMethodRowMatches m pk c) := by
      funext c
      rw [matchesQuery_eq_spec]
    simp only [hq]
    cases hxr : db.conditions.find? (fun c =>
        c.keyUserId == keyUser.id && c.method == some "*" && c.allowed == false) with
    | some cr =>
      have hp := List.find?_some hxr
      have hmem := List.mem_of_find?_eq_some hxr
      have hany : db.conditions.any (fun c =>
          c.keyUserId == keyUser.id && c.method == some "*" && c.allowed == false) = true :=
        List.any_eq_true.mpr ⟨cr, hmem, hp⟩
      rw [hany]
      rfl
    | none =>
      have hany : db.conditions.any (fun c =>
          c.keyUserId == keyUser.id && c.method == some "*" && c.allowed == false) = false := by
        rw [List.any_eq_false]
        exact List.find?_eq_none.mp hxr
      rw [hany]
      simp only [Bool.false_eq_true, if_false]
      cases db.conditions.find? (fun c =>
          c.keyUserId == keyUser.id && specMethodRowMatches m pk c) with
      | none => rfl
      | some row =>
        cases hall : row.allowed <;> cases hrev : keyUser.revokedAt.isSome <;>
          simp [hall, hrev, AclDecision.toOptionBool]

/-! ## Claim C3: the admin "never" and one-shot answers -/

/-- C3 counterexample: answering ["never", ...] on an empty store leaves
the store empty (no KeyUser upsert, no wildcard deny row) and leaves the
suspended request pending instead of rejecting it. -/
theorem never_response_writes_nothing_cex :
    requestPermissionResponse {} .pending "remote-pk" "alice" "connect" none .never
      = ({}, PromiseState.pending) ∧
    ({} : Db).keyUsers = [] ∧ ({} : Db).conditions = [] ∧
    (PromiseState.pending : PromiseState (Option Bool) Unit) ≠ .rejected () :=
  ⟨rfl, rfl, rfl, by simp⟩

/-- C3 amended: the "never" arm of requestPermissionResponse is not
implemented: it neither writes ACL rows nor settles the request, and any
answer other than "always" (including an unparseable one) equally leaves
the store and the suspended request untouched, so the request can only
time out. -/
theorem non_always_admin_response_is_noop (db : Db)
    (p : PromiseState (Option Bool) Unit) (rp kn m : String) (param : Option String) :
    requestPermissionResponse db p rp kn m param .never = (db, p) ∧
    requestPermissionResponse db p rp kn m param .other = (db, p) ∧
    requestPermissionResponse db p rp kn m param .unparseable = (db, p) :=
  ⟨rfl, rfl, rfl⟩

/-! ## Claim C4: settlement values of the web-approval poll -/

/-- C4 counterexample: a row settled with allowed=true resolves the
suspended request with the row params (the serialized request), not with
the row payload. -/
theorem urlAuthFlow_resolves_params_cex :
    urlAuthFlowPollStep
      (some { id := 1, params := some "the-params",
              allowed := some true, payload := some "the-payload" }) true .pending
      = (false, .resolved (some "the-params")) ∧
    some "the-params" ≠ some "the-payload" :=
  ⟨rfl, by simp⟩

/-- C4 amended: when the polled row transitions to allowed=true the
request resolves with the row params; when it transitions to
allowed=false the request rejects with the row payload, and the
unconditional resolve call that follows is absorbed because the promise
is already settled. -/
theorem urlAuthFlow_settles (id : Nat) (kn : Option String) (rid rp m : String)
    (params payload : Option String) :
    urlAuthFlowPollStep
      (some { id := id, keyName := kn, requestId := rid,
              remotePubkey := rp, method := m, params := params,
              allowed := some true, payload := payload }) true .pending
      = (false, .resolved params) ∧
    urlAuthFlowPollStep
      (some { id := id, keyName := kn, requestId := rid,
              remotePubkey := rp, method := m, params := params,
              allowed := some false, payload := payload }) true .pending
      = (false, .rejected payload) :=
  ⟨rfl, rfl⟩

/-! ## Claim C7: a ledger row deleted by expiry -/

/-- C7 counterexample: when the poll observes the deleted row it stops
polling and leaves the suspended promise pending; nothing resolves it as
timed out. -/
theorem expired_row_leaves_request_pending_cex :
    urlAuthFlowPollStep none true
        (.pending : PromiseState (Option String) (Option String))
      = (false, .pending) :=
  rfl

/-- C7 amended: once the poller observes the deleted ledger row it clears
the interval, and however long polling would continue the suspended
promise stays exactly as it was: the web-approval path never settles a
request whose row expired, so the caller is left unsettled rather than
resolved as timed out. -/
theorem expired_row_never_settles (obs : List (Option RequestRow))
    (p : PromiseState (Option String) (Option String)) :
    urlAuthFlowPoll (none :: obs) true p = (false, p) := by
  show urlAuthFlowPoll obs (urlAuthFlowPollStep none true p).1
      (urlAuthFlowPollStep none true p).2 = (false, p)
  induction obs with
  | nil => rfl
  | cons o rest ih =>
    simpa [urlAuthFlowPoll, urlAuthFlowPollStep] using ih

/-! ## Claim C5: a completed grant makes matching lookups allow -/

/-- The created grant row always carries the granted method. -/
theorem grantCondition_method_eq (uid : Nat) (m : String) (s : Option AllowScope) :
    (grantCondition uid m s).method = some m := by
  cases s with
  | none => rfl
  | some sc =>
    obtain ⟨sk⟩ := sc
    cases sk with
    | none => rfl
    | some k =>
      by_cases hk : k = ""
      · simp [grantCondition, allowScopeToSigningConditionQuery, hk]
      · simp [grantCondition, allowScopeToSigningConditionQuery, hk]

/-- The created grant row is an allow row. -/
theorem grantCondition_allowed_eq (uid : Nat) (m : String) (s : Option AllowScope) :
    (grantCondition uid m s).allowed = true := rfl

/-- The created grant row belongs to the upserted user. -/
theorem grantCondition_keyUserId_eq (uid : Nat) (m : String) (s : Option AllowScope) :
    (grantCondition uid m s).keyUserId = uid := rfl

/-- Under matching arguments, the created grant row satisfies the lookup
query. -/
theorem grantCondition_matches (uid : Nat) (m : String) (scope : Option AllowScope)
    (pk : Option Nat) (hs : scopeMatches m scope pk) :
    matchesQuery (requestToSigningConditionQuery m pk) (grantCondition uid m scope)
      = true := by
  by_cases hm : m = "sign_event"
  · subst hm
    obtain ⟨sc, k, hsc, hk, hne, hcover⟩ := hs rfl
    subst hsc
    obtain ⟨sk⟩ := sc
    dsimp only at hk
    subst hk
    rcases hcover with h | ⟨n, hn, h⟩
    · subst h
      cases pk with
      | none =>
        simp [matchesQuery, requestToSigningConditionQuery, grantCondition,
          allowScopeToSigningConditionQuery, List.contains_cons]
      | some n =>
        simp [matchesQuery, requestToSigningConditionQuery, grantCondition,
          allowScopeToSigningConditionQuery, List.contains_cons]
    · subst h
      subst hn
      simp [matchesQuery, requestToSigningConditionQuery, grantCondition,
        allowScopeToSigningConditionQuery, List.contains_cons, hne]
  · have hmb : (m == "sign_event") = false := by simpa using hm
    simp [matchesQuery, requestToSigningConditionQuery, hmb, grantCondition_method_eq]

/-- A found KeyUser is a member matching the key pair. -/
theorem findKeyUser_props (db : Db) (kn rp : String) (u : KeyUser)
    (h : findKeyUser db kn rp = some u) :
    u ∈ db.keyUsers ∧ u.keyName = kn ∧ u.userPubkey = rp := by
  have hmem := List.mem_of_find?_eq_some h
  have hp := List.find?_some h
  simp only [Bool.and_eq_true, beq_iff_eq] at hp
  exact ⟨hmem, hp.1, hp.2⟩

/-- allowAllRequestsFromKey on an existing KeyUser only appends the grant
row. -/
theorem allowAll_existing (db : Db) (rp kn m : String) (param desc : Option String)
    (scope : Option AllowScope) (u : KeyUser) (hu : findKeyUser db kn rp = some u) :
    allowAllRequestsFromKey db rp kn m param desc scope
      = { db with conditions := db.conditions ++ [grantCondition u.id m scope] } := by
  unfold allowAllRequestsFromKey upsertKeyUser
  rw [hu]

/-- allowAllRequestsFromKey on a missing KeyUser creates the row and
appends the grant row for it. -/
theorem allowAll_fresh (db : Db) (rp kn m : String) (param desc : Option String)
    (scope : Option AllowScope) (hu : findKeyUser db kn rp = none) :
    allowAllRequestsFromKey db rp kn m param desc scope
      = { db with
          keyUsers := db.keyUsers ++ [freshKeyUser db kn rp desc],
          nextKeyUserId := db.nextKeyUserId + 1,
          conditions := db.conditions ++ [grantCondition db.nextKeyUserId m scope] } := by
  unfold allowAllRequestsFromKey upsertKeyUser freshKeyUser
  rw [hu]

/-- The lookup returns allow when the KeyUser is found and unrevoked, no
wildcard deny row exists, and the first query-matching row allows. -/
theorem lookup_allows_of_find (db : Db) (kn rp m : String) (pk : Option Nat)
    (u : KeyUser) (hu : findKeyUser db kn rp = some u)
    (hstar : db.conditions.find? (fun c =>
      c.keyUserId == u.id && c.method == some "*" && c.allowed == false) = none)
    (row : SigningCondition)
    (hrow : db.conditions.find? (fun c =>
      c.keyUserId == u.id &&
        matchesQuery (requestToSigningConditionQuery m pk) c) = some row)
    (hall : row.allowed = true) (hnr : u.revokedAt = none) :
    checkIfPubkeyAllowed db kn rp m pk = some true := by
  unfold checkIfPubkeyAllowed
  rw [hu]
  simp only [hstar, hrow, hall, hnr]
  rfl

/-- C5 counterexample: the KeyUser alice/rpk is revoked; a connect grant
completes, yet the subsequent matching lookup returns deny, not allow. -/
theorem grant_then_lookup_revoked_cex :
    checkIfPubkeyAllowed
      (allowAllRequestsFromKey
        { keyUsers := [{ id := 0, keyName := "alice", userPubkey := "rpk",
                         revokedAt := some 1 }],
          nextKeyUserId := 1 }
        "rpk" "alice" "connect" none none none)
      "alice" "rpk" "connect" none = some false := by
  rfl

/-- C5 amended: once allowAllRequestsFromKey completes for (keyName,
remotePubkey, method, scope), a subsequent lookup with matching arguments
returns allow, provided the KeyUser is not revoked, has no wildcard deny
row, and no existing matching deny row (the lookup returns the first
matching row); without the no-revocation proviso the claim fails. -/
theorem grant_then_matching_lookup_allows (db : Db) (kn rp m : String)
    (param desc : Option String) (scope : Option AllowScope) (pk : Option Nat)
    (hfresh : ∀ c ∈ db.conditions, c.keyUserId < db.nextKeyUserId)
    (hrev : ∀ u ∈ db.keyUsers, u.keyName = kn → u.userPubkey = rp → u.revokedAt = none)
    (hnostar : ∀ u ∈ db.keyUsers, u.keyName = kn → u.userPubkey = rp →
      ∀ c ∈ db.conditions, c.keyUserId = u.id →
        ¬(c.method = some "*" ∧ c.allowed = false))
    (hnodeny : ∀ u ∈ db.keyUsers, u.keyName = kn → u.userPubkey = rp →
      ∀ c ∈ db.conditions, c.keyUserId = u.id →
        matchesQuery (requestToSigningConditionQuery m pk) c = true → c.allowed = true)
    (hscope : scopeMatches m scope pk) :
    checkIfPubkeyAllowed (allowAllRequestsFromKey db rp kn m param desc scope)
      kn rp m pk = some true := by
  cases hu : findKeyUser db kn rp with
  | some u =>
    obtain ⟨humem, hukn, hurp⟩ := findKeyUser_props db kn rp u hu
    rw [allowAll_existing db rp kn m param desc scope u hu]
    have hstar : (db.conditions ++ [grantCondition u.id m scope]).find? (fun c =>
        c.keyUserId == u.id && c.method == some "*" && c.allowed == false) = none := by
      rw [List.find?_eq_none]
      intro c hc
      rcases List.mem_append.mp hc with hc1 | hc2
      · by_cases hid : c.keyUserId = u.id
        · have hns := hnostar u humem hukn hurp c hc1 hid
          simp only [Bool.and_eq_true, beq_iff_eq, not_and]
          intro h1
          rcases h1 with ⟨_, hmeth⟩
          intro hal
          exact hns ⟨hmeth, by simpa using hal⟩
        · simp only [Bool.and_eq_true, beq_iff_eq, not_and]
          intro h1
          rcases h1 with ⟨hid2, _⟩
          exact absurd hid2 hid
      · have hcg : c = grantCondition u.id m scope := by simpa using hc2
        subst hcg
        simp [grantCondition_allowed_eq]
    cases hf1 : db.conditions.find? (fun c =>
        c.keyUserId == u.id &&
          matchesQuery (requestToSigningConditionQuery m pk) c) with
    | some row =>
      have hrow : (db.conditions ++ [grantCondition u.id m scope]).find? (fun c =>
          c.keyUserId == u.id &&
            matchesQuery (requestToSigningConditionQuery m pk) c) = some row := by
        rw [List.find?_append, hf1]
        rfl
      have hrmem := List.mem_of_find?_eq_some hf1
      have hrp2 := List.find?_some hf1
      simp only [Bool.and_eq_true, beq_iff_eq] at hrp2
      have hall : row.allowed = true :=
        hnodeny u humem hukn hurp row hrmem hrp2.1 hrp2.2
      exact lookup_allows_of_find _ kn rp m pk u hu hstar row hrow hall
        (hrev u humem hukn hurp)
    | none =>
      have hrow : (db.conditions ++ [grantCondition u.id m scope]).find? (fun c =>
          c.keyUserId == u.id &&
            matchesQuery (requestToSigningConditionQuery m pk) c)
          = some (grantCondition u.id m scope) := by
        rw [List.find?_append, hf1]
        simp only [Option.none_or]
        rw [List.find?_cons_of_pos]
        simp [grantCondition_keyUserId_eq, grantCondition_matches _ _ _ _ hscope]
      exact lookup_allows_of_find _ kn rp m pk u hu hstar _ hrow
        (grantCondition_allowed_eq u.id m scope) (hrev u humem hukn hurp)
  | none =>
    rw [allowAll_fresh db rp kn m param desc scope hu]
    have hku : findKeyUser
        { db with
          keyUsers := db.keyUsers ++ [freshKeyUser db kn rp desc],
          nextKeyUserId := db.nextKeyUserId + 1,
          conditions := db.conditions ++ [grantCondition db.nextKeyUserId m scope] }
        kn rp = some (freshKeyUser db kn rp desc) := by
      unfold findKeyUser at hu ⊢
      simp only [List.find?_append, hu, Option.none_or]
      rw [List.find?_cons_of_pos]
      simp [freshKeyUser]
    have hstar : (db.conditions ++ [grantCondition db.nextKeyUserId m scope]).find?
        (fun c => c.keyUserId == db.nextKeyUserId && c.method == some "*" &&
          c.allowed == false) = none := by
      rw [List.find?_eq_none]
      intro c hc
      rcases List.mem_append.mp hc with hc1 | hc2
      · have hlt := hfresh c hc1
        simp only [Bool.and_eq_true, beq_iff_eq, not_and]
        intro h1
        rcases h1 with ⟨hid2, _⟩
        omega
      · have hcg : c = grantCondition db.nextKeyUserId m scope := by simpa using hc2
        subst hcg
        simp [grantCondition_allowed_eq]
    have hrow : (db.conditions ++ [grantCondition db.nextKeyUserId m scope]).find?
        (fun c => c.keyUserId == db.nextKeyUserId &&
          matchesQuery (requestToSigningConditionQuery m pk) c)
        = some (grantCondition db.nextKeyUserId m scope) := by
      rw [List.find?_append]
      have hf1 : db.conditions.find? (fun c =>
          c.keyUserId == db.nextKeyUserId &&
            matchesQuery (requestToSigningConditionQuery m pk) c) = none := by
        rw [List.find?_eq_none]
        intro c hc1
        have hlt := hfresh c hc1
        simp only [Bool.and_eq_true, beq_iff_eq, not_and]
        intro hid2
        omega
      rw [hf1]
      simp only [Option.none_or]
      rw [List.find?_cons_of_pos]
      simp [grantCondition_keyUserId_eq, grantCondition_matches _ _ _ _ hscope]
    exact lookup_allows_of_find _ kn rp m pk _ hku hstar _ hrow
      (grantCondition_allowed_eq db.nextKeyUserId m scope) rfl

/-- C5 witness: a concrete run of the amended theorem on an empty store
and a connect grant. -/
theorem grant_then_matching_lookup_allows_witness :
    checkIfPubkeyAllowed (allowAllRequestsFromKey {} "rpk" "alice" "connect"
      none none none) "alice" "rpk" "connect" none = some true :=
  grant_then_matching_lookup_allows {} "alice" "rpk" "connect" none none none none
    (by intro c hc; cases hc)
    (by intro u hu; cases hu)
    (by intro u hu; cases hu)
    (by intro u hu; cases hu)
    (by intro h; exact absurd h (by decide))

/-! ## Claim C10: revocation survives later grants and redemptions -/

/-- findKeyUser only reads the keyUsers column. -/
theorem findKeyUser_congr (db1 db2 : Db) (h : db1.keyUsers = db2.keyUsers)
    (kn rp : String) : findKeyUser db1 kn rp = findKeyUser db2 kn rp := by
  unfold findKeyUser
  rw [h]

/-- The empty-update upsert preserves any found KeyUser row. -/
theorem upsert_preserves_found (db : Db) (kn2 rp2 : String) (desc2 : Option String)
    (kn rp : String) (u : KeyUser) (h : findKeyUser db kn rp = some u) :
    findKeyUser (upsertKeyUser db kn2 rp2 desc2).1 kn rp = some u := by
  unfold upsertKeyUser
  cases h2 : findKeyUser db kn2 rp2 with
  | some w => exact h
  | none =>
    unfold findKeyUser at h ⊢
    simp only [List.find?_append, h]
    rfl

/-- The rule-materialization loop never touches the keyUsers column. -/
theorem applyPolicyRules_keyUsers (failAt : Option Nat) (step uid : Nat)
    (rules : List PolicyRule) (db : Db) :
    ((applyPolicyRules failAt step uid rules db).2).keyUsers = db.keyUsers := by
  induction rules generalizing step db with
  | nil => rfl
  | cons r rest ih =>
    unfold applyPolicyRules
    cases hb : failAt == some step with
    | true => simp [hb]
    | false =>
      simp only [hb, Bool.false_eq_true, if_false]
      exact ih (step + 1) _

/-- applyToken preserves any found KeyUser row, in every fault scenario. -/
theorem applyToken_preserves_found (failAt : Option Nat) (db : Db) (up tok : String)
    (now : Nat) (kn rp : String) (u : KeyUser) (h : findKeyUser db kn rp = some u) :
    findKeyUser (applyToken failAt db up tok now).2 kn rp = some u := by
  unfold applyToken
  cases hv : validateToken db tok now with
  | error e => exact h
  | ok tp =>
    obtain ⟨t, pol⟩ := tp
    cases h0 : failAt == some 0 with
    | true => simp only [h0, if_true]; exact h
    | false =>
      simp only [h0, Bool.false_eq_true, if_false]
      have hup := upsert_preserves_found db t.keyName up t.clientName kn rp u h
      cases h1 : failAt == some 1 with
      | true => simp only [h1, if_true]; exact hup
      | false =>
        simp only [h1, Bool.false_eq_true, if_false]
        cases hr : (applyPolicyRules failAt 2
            (upsertKeyUser db t.keyName up t.clientName).2.id pol.rules
            { (upsertKeyUser db t.keyName up t.clientName).1 with
              conditions := (upsertKeyUser db t.keyName up t.clientName).1.conditions ++
                [{ keyUserId := (upsertKeyUser db t.keyName up t.clientName).2.id,
                   method := some "connect", allowed := true }] }).1 with
        | error e =>
          simp only [hr]
          rw [findKeyUser_congr _ _ (applyPolicyRules_keyUsers _ _ _ _ _) kn rp]
          exact hup
        | ok unitv =>
          simp only [hr]
          cases h2 : failAt == some (2 + pol.rules.length) with
          | true =>
            simp only [h2, if_true]
            rw [findKeyUser_congr _ _ (applyPolicyRules_keyUsers _ _ _ _ _) kn rp]
            exact hup
          | false =>
            simp only [h2, Bool.false_eq_true, if_false]
            have hmk : (markTokenRedeemed (applyPolicyRules failAt 2
                (upsertKeyUser db t.keyName up t.clientName).2.id pol.rules
                { (upsertKeyUser db t.keyName up t.clientName).1 with
                  conditions := (upsertKeyUser db t.keyName up t.clientName).1.conditions ++
                    [{ keyUserId := (upsertKeyUser db t.keyName up t.clientName).2.id,
                       method := some "connect", allowed := true }] }).2 t.id now
                (upsertKeyUser db t.keyName up t.clientName).2.id).keyUsers
                = (upsertKeyUser db t.keyName up t.clientName).1.keyUsers := by
              show ((applyPolicyRules failAt 2 _ pol.rules _).2).keyUsers = _
              rw [applyPolicyRules_keyUsers]
            rw [findKeyUser_congr _ _ hmk kn rp]
            exact hup

/-- Each grant/redemption operation preserves a found KeyUser row. -/
theorem applyAclOp_preserves_found (db : Db) (op : AclOp) (kn rp : String)
    (u : KeyUser) (h : findKeyUser db kn rp = some u) :
    findKeyUser (applyAclOp db op) kn rp = some u := by
  cases op with
  | redeem up tok now => exact applyToken_preserves_found none db up tok now kn rp u h
  | grant rp2 kn2 m p d s =>
    show findKeyUser (allowAllRequestsFromKey db rp2 kn2 m p d s) kn rp = some u
    cases h2 : findKeyUser db kn2 rp2 with
    | some w => rw [allowAll_existing db rp2 kn2 m p d s w h2]; exact h
    | none =>
      rw [allowAll_fresh db rp2 kn2 m p d s h2]
      unfold findKeyUser at h ⊢
      simp only [List.find?_append, h]
      rfl

/-- C10: the grant and redemption paths upsert the KeyUser with an empty
update branch, so revokedAt is never cleared: a revoked KeyUser remains
the stored row across any sequence of grants and token redemptions, and
the ACL lookup never returns allow for it; when the first matching
condition allows, the lookup returns deny. -/
theorem revoked_keyUser_stays_denied (db : Db) (ops : List AclOp) (kn rp : String)
    (u : KeyUser) (t0 : Nat) (hu : findKeyUser db kn rp = some u)
    (hrevoked : u.revokedAt = some t0) :
    findKeyUser (applyAclOps db ops) kn rp = some u ∧
    ∀ m pk, checkIfPubkeyAllowed (applyAclOps db ops) kn rp m pk ≠ some true := by
  have hfound : findKeyUser (applyAclOps db ops) kn rp = some u := by
    induction ops generalizing db with
    | nil => exact hu
    | cons op rest ih => exact ih _ (applyAclOp_preserves_found db op kn rp u hu)
  refine ⟨hfound, ?_⟩
  intro m pk
  unfold checkIfPubkeyAllowed
  rw [hfound]
  dsimp only
  cases hst : (applyAclOps db ops).conditions.find? (fun c =>
      c.keyUserId == u.id && c.method == some "*" && c.allowed == false) with
  | some c => simp
  | none =>
    cases hmf : (applyAclOps db ops).conditions.find? (fun c =>
        c.keyUserId == u.id &&
          matchesQuery (requestToSigningConditionQuery m pk) c) with
    | none => simp
    | some row => cases hra : row.allowed <;> simp [hra, hrevoked]

/-- C10 witness: a revoked KeyUser, one later connect grant, and a lookup
that still does not allow. -/
theorem revoked_keyUser_stays_denied_witness :
    findKeyUser (applyAclOps
        { keyUsers := [{ id := 0, keyName := "alice", userPubkey := "rpk",
                         revokedAt := some 1 }],
          nextKeyUserId := 1 }
        [AclOp.grant "rpk" "alice" "connect" none none none]) "alice" "rpk"
      = some { id := 0, keyName := "alice", userPubkey := "rpk",
               revokedAt := some 1 } ∧
    checkIfPubkeyAllowed (applyAclOps
        { keyUsers := [{ id := 0, keyName := "alice", userPubkey := "rpk",
                         revokedAt := some 1 }],
          nextKeyUserId := 1 }
        [AclOp.grant "rpk" "alice" "connect" none none none])
      "alice" "rpk" "connect" none ≠ some true := by
  have h := revoked_keyUser_stays_denied
    { keyUsers := [{ id := 0, keyName := "alice", userPubkey := "rpk",
                     revokedAt := some 1 }],
      nextKeyUserId := 1 }
    [AclOp.grant "rpk" "alice" "connect" none none none] "alice" "rpk"
    { id := 0, keyName := "alice", userPubkey := "rpk", revokedAt := some 1 }
    1 (by rfl) rfl
  exact ⟨h.1, h.2 "connect" none⟩

/-! ## Claims C6 and C8: applyToken -/

/-- The upsert never touches the tokens column. -/
theorem upsert_tokens (db : Db) (kn rp : String) (d : Option String) :
    ((upsertKeyUser db kn rp d).1).tokens = db.tokens := by
  unfold upsertKeyUser
  cases findKeyUser db kn rp <;> rfl

/-- Fault-free rule materialization appends exactly one condition per
policy rule. -/
theorem applyPolicyRules_none_eq (step uid : Nat) (rules : List PolicyRule) (db : Db) :
    applyPolicyRules none step uid rules db
      = (.ok (), { db with
          conditions := db.conditions ++ rules.map (conditionOfRule uid) }) := by
  induction rules generalizing step db with
  | nil => simp [applyPolicyRules]
  | cons r rest ih =>
    unfold applyPolicyRules
    simp only [show (none == some step) = false from rfl, Bool.false_eq_true, if_false]
    rw [ih]
    simp [List.append_assoc]

/-- The fault-free applyToken on a validated token: the KeyUser upsert,
the baseline connect allow, one condition per policy rule, and the
redeemedAt mark all land. -/
theorem applyToken_none_ok (db : Db) (up tok : String) (now : Nat) (t : Token)
    (pol : Policy) (hv : validateToken db tok now = .ok (t, pol)) :
    applyToken none db up tok now = (.ok (), markTokenRedeemed
      { (upsertKeyUser db t.keyName up t.clientName).1 with
        conditions := (upsertKeyUser db t.keyName up t.clientName).1.conditions ++
          [{ keyUserId := (upsertKeyUser db t.keyName up t.clientName).2.id,
             method := some "connect", allowed := true }] ++
          pol.rules.map (conditionOfRule (upsertKeyUser db t.keyName up t.clientName).2.id) }
      t.id now (upsertKeyUser db t.keyName up t.clientName).2.id) := by
  unfold applyToken
  rw [hv]
  simp only [show ∀ k : Nat, (none == some k) = false from fun k => rfl,
    Bool.false_eq_true, if_false]
  rw [applyPolicyRules_none_eq]

/-- A validated token was found unredeemed under a nonempty token string. -/
theorem validateToken_ok_props (db : Db) (tok : String) (now : Nat) (t : Token)
    (pol : Policy) (h : validateToken db tok now = .ok (t, pol)) :
    (tok == "") = false ∧ findToken db tok = some t ∧ t.redeemedAt = none := by
  unfold validateToken at h
  cases hq : tok == "" with
  | true => rw [hq] at h; simp at h
  | false =>
    rw [hq] at h
    simp only [Bool.false_eq_true, if_false] at h
    cases hf : findToken db tok with
    | none => rw [hf] at h; simp at h
    | some tr =>
      rw [hf] at h
      cases hr : tr.redeemedAt.isSome with
      | true => simp [hr] at h
      | false =>
        simp only [hr, Bool.false_eq_true, if_false] at h
        cases hp : tr.policyId.bind (findPolicy db) with
        | none => rw [hp] at h; simp at h
        | some p =>
          rw [hp] at h
          dsimp only at h
          have hnone : tr.redeemedAt = none := by
            cases hre : tr.redeemedAt with
            | none => rfl
            | some x => rw [hre] at hr; simp at hr
          have htr : tr = t := by
            cases he : tr.expiresAt with
            | none =>
              rw [he] at h
              dsimp only at h
              injection h with h2
              exact congrArg Prod.fst h2
            | some e =>
              rw [he] at h
              dsimp only at h
              by_cases hlt : e < now
              · rw [if_pos hlt] at h
                exact absurd h (by simp)
              · rw [if_neg hlt] at h
                injection h with h2
                exact congrArg Prod.fst h2
          subst htr
          exact ⟨rfl, rfl, hnone⟩

/-- Mapping over tokens while preserving the token strings commutes with
the token lookup. -/
theorem find?_token_map (l : List Token) (f : Token → Token)
    (hf : ∀ t, (f t).token = t.token) (tok : String) :
    (l.map f).find? (fun t => t.token == tok)
      = (l.find? (fun t => t.token == tok)).map f := by
  induction l with
  | nil => rfl
  | cons t rest ih =>
    have hft : ((f t).token == tok) = (t.token == tok) := by rw [hf]
    cases hb : t.token == tok with
    | true =>
      rw [List.map_cons, List.find?_cons_of_pos, List.find?_cons_of_pos]
      · rfl
      · exact hb
      · rw [hft]; exact hb
    | false =>
      rw [List.map_cons, List.find?_cons_of_neg, List.find?_cons_of_neg]
      · exact ih
      · simp [hb]
      · simp [hft, hb]

/-- C8: the first successful applyToken marks the token redeemed, and a
second applyToken with the same token (from any caller) fails with the
Token already redeemed error without changing the store. -/
theorem applyToken_second_redemption_fails (db : Db) (up up2 tok : String)
    (now now2 : Nat) (t : Token) (pol : Policy)
    (hv : validateToken db tok now = .ok (t, pol)) :
    (∃ t2, findToken (applyToken none db up tok now).2 tok = some t2 ∧
       t2.redeemedAt = some now) ∧
    applyToken none (applyToken none db up tok now).2 up2 tok now2
      = (.error "Token already redeemed", (applyToken none db up tok now).2) := by
  obtain ⟨hq, hf, hr⟩ := validateToken_ok_props db tok now t pol hv
  rw [applyToken_none_ok db up tok now t pol hv]
  have htokens : ∀ base : Db, ∀ uid : Nat,
      (markTokenRedeemed base t.id now uid).tokens
        = base.tokens.map (fun tk =>
            if tk.id == t.id then { tk with redeemedAt := some now, keyUserId := some uid }
            else tk) := fun _ _ => rfl
  have hfind : findToken (markTokenRedeemed
      { (upsertKeyUser db t.keyName up t.clientName).1 with
        conditions := (upsertKeyUser db t.keyName up t.clientName).1.conditions ++
          [{ keyUserId := (upsertKeyUser db t.keyName up t.clientName).2.id,
             method := some "connect", allowed := true }] ++
          pol.rules.map (conditionOfRule (upsertKeyUser db t.keyName up t.clientName).2.id) }
      t.id now (upsertKeyUser db t.keyName up t.clientName).2.id) tok
      = some { t with redeemedAt := some now, keyUserId := some (upsertKeyUser db t.keyName up t.clientName).2.id } := by
    unfold findToken
    rw [htokens]
    have hbase : ({ (upsertKeyUser db t.keyName up t.clientName).1 with
        conditions := (upsertKeyUser db t.keyName up t.clientName).1.conditions ++
          [{ keyUserId := (upsertKeyUser db t.keyName up t.clientName).2.id,
             method := some "connect", allowed := true }] ++
          pol.rules.map (conditionOfRule (upsertKeyUser db t.keyName up t.clientName).2.id) } : Db).tokens
        = db.tokens := upsert_tokens db t.keyName up t.clientName
    rw [hbase]
    rw [find?_token_map db.tokens _ (fun tk => by cases hb : tk.id == t.id <;> simp [hb]) tok]
    unfold findToken at hf
    rw [hf]
    simp
  refine ⟨⟨_, hfind, rfl⟩, ?_⟩
  unfold applyToken
  have hv2 : validateToken (markTokenRedeemed
      { (upsertKeyUser db t.keyName up t.clientName).1 with
        conditions := (upsertKeyUser db t.keyName up t.clientName).1.conditions ++
          [{ keyUserId := (upsertKeyUser db t.keyName up t.clientName).2.id,
             method := some "connect", allowed := true }] ++
          pol.rules.map (conditionOfRule (upsertKeyUser db t.keyName up t.clientName).2.id) }
      t.id now (upsertKeyUser db t.keyName up t.clientName).2.id) tok now2
      = .error "Token already redeemed" := by
    unfold validateToken
    rw [hq]
    simp only [Bool.false_eq_true, if_false]
    rw [hfind]
    rfl
  rw [hv2]

/-- C8 witness: a concrete one-rule token redeemed twice. -/
theorem applyToken_second_redemption_fails_witness :
    (∃ t2, findToken (applyToken none
        { tokens := [{ id := 1, token := "tok1", keyName := "alice",
                       clientName := some "cl", policyId := some 7 }],
          policies := [{ id := 7, name := "p",
                         rules := [{ method := "sign_event", kind := some "1" }] }] }
        "upk" "tok1" 99).2 "tok1" = some t2 ∧ t2.redeemedAt = some 99) ∧
    applyToken none (applyToken none
        { tokens := [{ id := 1, token := "tok1", keyName := "alice",
                       clientName := some "cl", policyId := some 7 }],
          policies := [{ id := 7, name := "p",
                         rules := [{ method := "sign_event", kind := some "1" }] }] }
        "upk" "tok1" 99).2 "upk2" "tok1" 100
      = (.error "Token already redeemed", (applyToken none
        { tokens := [{ id := 1, token := "tok1", keyName := "alice",
                       clientName := some "cl", policyId := some 7 }],
          policies := [{ id := 7, name := "p",
                         rules := [{ method := "sign_event", kind := some "1" }] }] }
        "upk" "tok1" 99).2) :=
  applyToken_second_redemption_fails
    { tokens := [{ id := 1, token := "tok1", keyName := "alice",
                   clientName := some "cl", policyId := some 7 }],
      policies := [{ id := 7, name := "p",
                     rules := [{ method := "sign_event", kind := some "1" }] }] }
    "upk" "upk2" "tok1" 99 100
    { id := 1, token := "tok1", keyName := "alice",
      clientName := some "cl", policyId := some 7 }
    { id := 7, name := "p", rules := [{ method := "sign_event", kind := some "1" }] }
    (by rfl)

/-- C6 counterexample: with a storage fault at the final write (the
redeemedAt mark), applyToken reports an error while the KeyUser upsert,
the connect allow and the rule condition remain in the store and the
token table is untouched: neither all effects nor none. -/
theorem applyToken_partial_write_cex :
    (applyToken (some 3)
        { tokens := [{ id := 1, token := "tok1", keyName := "alice",
                       clientName := some "cl", policyId := some 7 }],
          policies := [{ id := 7, name := "p",
                         rules := [{ method := "sign_event", kind := some "1" }] }] }
        "upk" "tok1" 99).1 = .error "storage fault" ∧
    (applyToken (some 3)
        { tokens := [{ id := 1, token := "tok1", keyName := "alice",
                       clientName := some "cl", policyId := some 7 }],
          policies := [{ id := 7, name := "p",
                         rules := [{ method := "sign_event", kind := some "1" }] }] }
        "upk" "tok1" 99).2.conditions.length = 2 ∧
    (applyToken (some 3)
        { tokens := [{ id := 1, token := "tok1", keyName := "alice",
                       clientName := some "cl", policyId := some 7 }],
          policies := [{ id := 7, name := "p",
                         rules := [{ method := "sign_event", kind := some "1" }] }] }
        "upk" "tok1" 99).2.keyUsers.length = 1 ∧
    (applyToken (some 3)
        { tokens := [{ id := 1, token := "tok1", keyName := "alice",
                       clientName := some "cl", policyId := some 7 }],
          policies := [{ id := 7, name := "p",
                         rules := [{ method := "sign_event", kind := some "1" }] }] }
        "upk" "tok1" 99).2.tokens
      = [{ id := 1, token := "tok1", keyName := "alice",
           clientName := some "cl", policyId := some 7 }] := by
  refine ⟨rfl, rfl, rfl, rfl⟩

/-- C6 amended: applyToken is not transactional: its writes run
sequentially, so a failing write leaves the earlier writes in place (see
the counterexample). What does hold: a validation failure occurs before
any write and leaves the store unchanged, and in a fault-free run every
row lands (upsert, connect allow, one condition per rule, redeemedAt). -/
theorem applyToken_sequential_effects (failAt : Option Nat) (db : Db)
    (up tok : String) (now : Nat) (e : String) (t : Token) (pol : Policy) :
    (validateToken db tok now = .error e →
      applyToken failAt db up tok now = (.error e, db)) ∧
    (validateToken db tok now = .ok (t, pol) →
      applyToken none db up tok now = (.ok (), markTokenRedeemed
        { (upsertKeyUser db t.keyName up t.clientName).1 with
          conditions := (upsertKeyUser db t.keyName up t.clientName).1.conditions ++
            [{ keyUserId := (upsertKeyUser db t.keyName up t.clientName).2.id,
               method := some "connect", allowed := true }] ++
            pol.rules.map
              (conditionOfRule (upsertKeyUser db t.keyName up t.clientName).2.id) }
        t.id now (upsertKeyUser db t.keyName up t.clientName).2.id)) := by
  constructor
  · intro hv
    unfold applyToken
    rw [hv]
  · intro hv
    exact applyToken_none_ok db up tok now t pol hv

/-- C6 witness: the validation-failure clause on an empty store and the
fault-free clause on a concrete token. -/
theorem applyToken_sequential_effects_witness :
    applyToken none {} "upk" "missing" 0 = (.error "Token not found", {}) ∧
    applyToken none
        { tokens := [{ id := 1, token := "tok1", keyName := "alice",
                       clientName := some "cl", policyId := some 7 }],
          policies := [{ id := 7, name := "p", rules := [] }] }
        "upk" "tok1" 99
      = (.ok (), markTokenRedeemed
          { (upsertKeyUser
              { tokens := [{ id := 1, token := "tok1", keyName := "alice",
                             clientName := some "cl", policyId := some 7 }],
                policies := [{ id := 7, name := "p", rules := [] }] }
              "alice" "upk" (some "cl")).1 with
            conditions := [{ keyUserId := 0, method := some "connect",
                             allowed := true }] }
          1 99 0) := by
  constructor
  · exact (applyToken_sequential_effects none {} "upk" "missing" 0 "Token not found"
      { id := 0, token := "", keyName := "" } { id := 0, name := "" }).1 rfl
  · have h := (applyToken_sequential_effects none
      { tokens := [{ id := 1, token := "tok1", keyName := "alice",
                     clientName := some "cl", policyId := some 7 }],
        policies := [{ id := 7, name := "p", rules := [] }] }
      "upk" "tok1" 99 ""
      { id := 1, token := "tok1", keyName := "alice",
        clientName := some "cl", policyId := some 7 }
      { id := 7, name := "p", rules := [] }).2 rfl
    rw [h]
    rfl

/-! ## Claim C1: what the key store persists -/

/-- Writing a binding makes it readable. -/
theorem lookupAssoc_upsertAssoc_self {α : Type} (l : List (String × α))
    (k : String) (v : α) : lookupAssoc (upsertAssoc l k v) k = some v := by
  induction l with
  | nil => simp [upsertAssoc, lookupAssoc]
  | cons p rest ih =>
    obtain ⟨k0, v0⟩ := p
    unfold upsertAssoc
    cases hb : k0 == k with
    | true =>
      simp only [hb, if_true]
      simp [lookupAssoc]
    | false =>
      simp only [hb, Bool.false_eq_true, if_false]
      unfold lookupAssoc
      rw [hb]
      simp only [Bool.false_eq_true, if_false]
      exact ih

/-- C1 counterexample: a successful create_account writes the freshly
generated private key to the configuration file in plaintext
(keys[username@domain] = plain key), not as an encrypted iv/data blob. -/
theorem createAccount_persists_plaintext_cex :
    lookupAssoc (((createAccountReal
        { configFile := some { domains := [("example.com", { nip05 := "/p" })] } }
        {} "caller-pk" "bob" "example.com" "priv-key-hex" "pub-key-hex").1).configFile.getD {}).keys
        "bob@example.com" = some (KeyEntry.plain "priv-key-hex") ∧
    (createAccountReal
        { configFile := some { domains := [("example.com", { nip05 := "/p" })] } }
        {} "caller-pk" "bob" "example.com" "priv-key-hex" "pub-key-hex").2.2
      = .ok "pub-key-hex" :=
  ⟨rfl, rfl⟩

/-- C1 amended: saveEncrypted (the add and create_new_key paths) persists
only the encrypted iv/data blob for its key, but createAccountReal
persists the newly generated account key in plaintext under
keys[username@domain].key: the no-plaintext-on-disk invariant holds for
the explicit key-store writers yet fails for create_account. -/
theorem key_persistence_formats (fs : FileSystem) (db : Db)
    (nsec passphrase name : String) (ivBytes : List Nat)
    (reqPubkey username domain privateKey pubkey : String) (dcfg : DomainCfg)
    (hne : (getCurrentConfig fs).domains ≠ [])
    (huser : username ≠ "")
    (hdom : lookupAssoc (getCurrentConfig fs).domains domain = some dcfg)
    (hfree : lookupAssoc ((lookupAssoc fs.nip05Files dcfg.nip05).getD {}).names
      username = none) :
    (∃ cfg1, (saveEncrypted fs nsec passphrase name ivBytes).configFile = some cfg1 ∧
      lookupAssoc cfg1.keys name = some (KeyEntry.encrypted
        (encryptNsec (strBytes nsec) (strBytes passphrase) ivBytes).iv
        (encryptNsec (strBytes nsec) (strBytes passphrase) ivBytes).data)) ∧
    (∃ cfg2,
      (createAccountReal fs db reqPubkey username domain privateKey pubkey).1.configFile
        = some cfg2 ∧
      lookupAssoc cfg2.keys (username ++ "@" ++ domain)
        = some (KeyEntry.plain privateKey)) := by
  constructor
  · refine ⟨_, rfl, ?_⟩
    exact lookupAssoc_upsertAssoc_self _ _ _
  · unfold createAccountReal
    rw [if_neg hne, if_neg huser, hdom]
    simp only [hfree, Option.isSome_none, Bool.false_eq_true, if_false]
    exact ⟨_, rfl, lookupAssoc_upsertAssoc_self _ _ _⟩

/-- C1 witness: the amended theorem at a concrete store. -/
theorem key_persistence_formats_witness :
    (∃ cfg1, (saveEncrypted
        { configFile := some { domains := [("example.com", { nip05 := "/p" })] } }
        "nsec1xyz" "pass" "alice" [0] ).configFile = some cfg1 ∧
      lookupAssoc cfg1.keys "alice" = some (KeyEntry.encrypted
        (encryptNsec (strBytes "nsec1xyz") (strBytes "pass") [0]).iv
        (encryptNsec (strBytes "nsec1xyz") (strBytes "pass") [0]).data)) ∧
    (∃ cfg2,
      (createAccountReal
        { configFile := some { domains := [("example.com", { nip05 := "/p" })] } }
        {} "caller-pk" "bob" "example.com" "priv-key-hex" "pub-key-hex").1.configFile
        = some cfg2 ∧
      lookupAssoc cfg2.keys ("bob" ++ "@" ++ "example.com")
        = some (KeyEntry.plain "priv-key-hex")) :=
  key_persistence_formats
    { configFile := some { domains := [("example.com", { nip05 := "/p" })] } }
    {} "nsec1xyz" "pass" "alice" [0] "caller-pk" "bob" "example.com"
    "priv-key-hex" "pub-key-hex" { nip05 := "/p" }
    (by simp [getCurrentConfig]) (by simp) (by rfl) (by rfl)

/-! ## Claim C9: the at-rest key encryption round trip -/

theorem xor_lt256 (x y : Nat) (hx : x < 256) (hy : y < 256) : x ^^^ y < 256 := by
  have h : (256 : Nat) = 2 ^ 8 := by norm_num
  rw [h] at hx hy ⊢
  exact Nat.xor_lt_two_pow hx hy

theorem xtime_lt (x : Nat) : xtime x < 256 := by
  unfold xtime
  by_cases h : 128 <= x
  · rw [if_pos h]
    exact xor_lt256 _ _ (Nat.mod_lt _ (by norm_num)) (by norm_num)
  · rw [if_neg h]
    omega

theorem gm3_lt (x : Nat) (hx : x < 256) : gm3 x < 256 :=
  xor_lt256 _ _ (xtime_lt x) hx

theorem gm4_lt (x : Nat) : gm4 x < 256 := xtime_lt _

theorem gm8_lt (x : Nat) : gm8 x < 256 := xtime_lt _

theorem gm9_lt (x : Nat) (hx : x < 256) : gm9 x < 256 :=
  xor_lt256 _ _ (gm8_lt x) hx

theorem gm11_lt (x : Nat) (hx : x < 256) : gm11 x < 256 :=
  xor_lt256 _ _ (xor_lt256 _ _ (gm8_lt x) (xtime_lt x)) hx

theorem gm13_lt (x : Nat) (hx : x < 256) : gm13 x < 256 :=
  xor_lt256 _ _ (xor_lt256 _ _ (gm8_lt x) (gm4_lt x)) hx

theorem gm14_lt (x : Nat) : gm14 x < 256 :=
  xor_lt256 _ _ (xor_lt256 _ _ (gm8_lt x) (gm4_lt x)) (xtime_lt x)

/-- Exhaustive check: xtime distributes over xor on bytes. -/
theorem xtime_xor_all : ((List.range 256).all fun x => (List.range 256).all fun y =>
    xtime (x ^^^ y) == xtime x ^^^ xtime y) = true := by rfl

theorem xtime_xor (x y : Nat) (hx : x < 256) (hy : y < 256) :
    xtime (x ^^^ y) = xtime x ^^^ xtime y := by
  have h := xtime_xor_all
  rw [List.all_eq_true] at h
  have h2 := h x (List.mem_range.mpr hx)
  simp only [List.all_eq_true] at h2
  have h3 := h2 y (List.mem_range.mpr hy)
  simpa using h3

theorem xor_left_comm (a b c : Nat) : a ^^^ (b ^^^ c) = b ^^^ (a ^^^ c) := by
  rw [← Nat.xor_assoc, Nat.xor_comm a b, Nat.xor_assoc]

theorem gm3_xor (x y : Nat) (hx : x < 256) (hy : y < 256) :
    gm3 (x ^^^ y) = gm3 x ^^^ gm3 y := by
  unfold gm3
  rw [xtime_xor x y hx hy]
  simp [Nat.xor_assoc, Nat.xor_comm, xor_left_comm]

theorem gm4_xor (x y : Nat) (hx : x < 256) (hy : y < 256) :
    gm4 (x ^^^ y) = gm4 x ^^^ gm4 y := by
  unfold gm4
  rw [xtime_xor x y hx hy, xtime_xor _ _ (xtime_lt x) (xtime_lt y)]

theorem gm8_xor (x y : Nat) (hx : x < 256) (hy : y < 256) :
    gm8 (x ^^^ y) = gm8 x ^^^ gm8 y := by
  unfold gm8
  rw [gm4_xor x y hx hy, xtime_xor _ _ (gm4_lt x) (gm4_lt y)]

theorem gm9_xor (x y : Nat) (hx : x < 256) (hy : y < 256) :
    gm9 (x ^^^ y) = gm9 x ^^^ gm9 y := by
  unfold gm9
  rw [gm8_xor x y hx hy]
  simp [Nat.xor_assoc, Nat.xor_comm, xor_left_comm]

theorem gm11_xor (x y : Nat) (hx : x < 256) (hy : y < 256) :
    gm11 (x ^^^ y) = gm11 x ^^^ gm11 y := by
  unfold gm11
  rw [gm8_xor x y hx hy, xtime_xor x y hx hy]
  simp [Nat.xor_assoc, Nat.xor_comm, xor_left_comm]

theorem gm13_xor (x y : Nat) (hx : x < 256) (hy : y < 256) :
    gm13 (x ^^^ y) = gm13 x ^^^ gm13 y := by
  unfold gm13
  rw [gm8_xor x y hx hy, gm4_xor x y hx hy]
  simp [Nat.xor_assoc, Nat.xor_comm, xor_left_comm]

theorem gm14_xor (x y : Nat) (hx : x < 256) (hy : y < 256) :
    gm14 (x ^^^ y) = gm14 x ^^^ gm14 y := by
  unfold gm14
  rw [gm8_xor x y hx hy, gm4_xor x y hx hy, xtime_xor x y hx hy]
  simp [Nat.xor_assoc, Nat.xor_comm, xor_left_comm]

/-- The four dot products of the InvMixColumns and MixColumns matrices:
the diagonal one is the identity, the other three vanish. -/
theorem coeff_id : ∀ x : Fin 256,
    gm14 (xtime x.val) ^^^ gm11 x.val ^^^ gm13 x.val ^^^ gm9 (gm3 x.val) = x.val := by
  decide

theorem coeff_z1 : ∀ x : Fin 256,
    gm14 (gm3 x.val) ^^^ gm11 (xtime x.val) ^^^ gm13 x.val ^^^ gm9 x.val = 0 := by
  decide

theorem coeff_z2 : ∀ x : Fin 256,
    gm14 x.val ^^^ gm11 (gm3 x.val) ^^^ gm13 (xtime x.val) ^^^ gm9 x.val = 0 := by
  decide

theorem coeff_z3 : ∀ x : Fin 256,
    gm14 x.val ^^^ gm11 x.val ^^^ gm13 (gm3 x.val) ^^^ gm9 (xtime x.val) = 0 := by
  decide


theorem coeff_id_nat (x : Nat) (hx : x < 256) :
    gm14 (xtime x) ^^^ gm11 x ^^^ gm13 x ^^^ gm9 (gm3 x) = x := coeff_id ⟨x, hx⟩

theorem coeff_z1_nat (x : Nat) (hx : x < 256) :
    gm14 (gm3 x) ^^^ gm11 (xtime x) ^^^ gm13 x ^^^ gm9 x = 0 := coeff_z1 ⟨x, hx⟩

theorem coeff_z2_nat (x : Nat) (hx : x < 256) :
    gm14 x ^^^ gm11 (gm3 x) ^^^ gm13 (xtime x) ^^^ gm9 x = 0 := coeff_z2 ⟨x, hx⟩

theorem coeff_z3_nat (x : Nat) (hx : x < 256) :
    gm14 x ^^^ gm11 x ^^^ gm13 (gm3 x) ^^^ gm9 (xtime x) = 0 := coeff_z3 ⟨x, hx⟩

/-- The heart of AES decryption: InvMixColumns inverts MixColumns on one
column of bytes. -/
theorem invMixCol_mixCol (a b c d : Nat) (ha : a < 256) (hb : b < 256)
    (hc : c < 256) (hd : d < 256) :
    invMixCol (xtime a ^^^ gm3 b ^^^ c ^^^ d) (a ^^^ xtime b ^^^ gm3 c ^^^ d)
      (a ^^^ b ^^^ xtime c ^^^ gm3 d) (gm3 a ^^^ b ^^^ c ^^^ xtime d)
      = [a, b, c, d] := by
  have h1 : xtime a ^^^ gm3 b < 256 := xor_lt256 _ _ (xtime_lt a) (gm3_lt b hb)
  have h2 : xtime a ^^^ gm3 b ^^^ c < 256 := xor_lt256 _ _ h1 hc
  have h3 : a ^^^ xtime b < 256 := xor_lt256 _ _ ha (xtime_lt b)
  have h4 : a ^^^ xtime b ^^^ gm3 c < 256 := xor_lt256 _ _ h3 (gm3_lt c hc)
  have h5 : a ^^^ b < 256 := xor_lt256 _ _ ha hb
  have h6 : a ^^^ b ^^^ xtime c < 256 := xor_lt256 _ _ h5 (xtime_lt c)
  have h7 : gm3 a ^^^ b < 256 := xor_lt256 _ _ (gm3_lt a ha) hb
  have h8 : gm3 a ^^^ b ^^^ c < 256 := xor_lt256 _ _ h7 hc
  have key0 : (gm14 (xtime a) ^^^ gm11 a ^^^ gm13 a ^^^ gm9 (gm3 a)) ^^^ ((gm14 (gm3 b) ^^^ gm11 (xtime b) ^^^ gm13 b ^^^ gm9 b) ^^^ ((gm14 c ^^^ gm11 (gm3 c) ^^^ gm13 (xtime c) ^^^ gm9 c) ^^^ (gm14 d ^^^ gm11 d ^^^ gm13 (gm3 d) ^^^ gm9 (xtime d)))) = a := by
    rw [coeff_id_nat a ha, coeff_z1_nat b hb, coeff_z2_nat c hc, coeff_z3_nat d hd]
    simp
  have key1 : (gm14 a ^^^ gm11 a ^^^ gm13 (gm3 a) ^^^ gm9 (xtime a)) ^^^ ((gm14 (xtime b) ^^^ gm11 b ^^^ gm13 b ^^^ gm9 (gm3 b)) ^^^ ((gm14 (gm3 c) ^^^ gm11 (xtime c) ^^^ gm13 c ^^^ gm9 c) ^^^ (gm14 d ^^^ gm11 (gm3 d) ^^^ gm13 (xtime d) ^^^ gm9 d))) = b := by
    rw [coeff_z3_nat a ha, coeff_id_nat b hb, coeff_z1_nat c hc, coeff_z2_nat d hd]
    simp
  have key2 : (gm14 a ^^^ gm11 (gm3 a) ^^^ gm13 (xtime a) ^^^ gm9 a) ^^^ ((gm14 b ^^^ gm11 b ^^^ gm13 (gm3 b) ^^^ gm9 (xtime b)) ^^^ ((gm14 (xtime c) ^^^ gm11 c ^^^ gm13 c ^^^ gm9 (gm3 c)) ^^^ (gm14 (gm3 d) ^^^ gm11 (xtime d) ^^^ gm13 d ^^^ gm9 d))) = c := by
    rw [coeff_z2_nat a ha, coeff_z3_nat b hb, coeff_id_nat c hc, coeff_z1_nat d hd]
    simp
  have key3 : (gm14 (gm3 a) ^^^ gm11 (xtime a) ^^^ gm13 a ^^^ gm9 a) ^^^ ((gm14 b ^^^ gm11 (gm3 b) ^^^ gm13 (xtime b) ^^^ gm9 b) ^^^ ((gm14 c ^^^ gm11 c ^^^ gm13 (gm3 c) ^^^ gm9 (xtime c)) ^^^ (gm14 (xtime d) ^^^ gm11 d ^^^ gm13 d ^^^ gm9 (gm3 d)))) = d := by
    rw [coeff_z1_nat a ha, coeff_z2_nat b hb, coeff_z3_nat c hc, coeff_id_nat d hd]
    simp
  unfold invMixCol
  simp only [List.cons.injEq, and_true]
  refine ⟨?_, ?_, ?_, ?_⟩
  · refine Eq.trans ?_ key0
    simp only [gm14_xor, gm11_xor, gm13_xor, gm9_xor, xtime_lt, gm3_lt, xor_lt256,
      ha, hb, hc, hd, h1, h2, h3, h4, h5, h6, h7, h8]
    ac_rfl
  · refine Eq.trans ?_ key1
    simp only [gm14_xor, gm11_xor, gm13_xor, gm9_xor, xtime_lt, gm3_lt, xor_lt256,
      ha, hb, hc, hd, h1, h2, h3, h4, h5, h6, h7, h8]
    ac_rfl
  · refine Eq.trans ?_ key2
    simp only [gm14_xor, gm11_xor, gm13_xor, gm9_xor, xtime_lt, gm3_lt, xor_lt256,
      ha, hb, hc, hd, h1, h2, h3, h4, h5, h6, h7, h8]
    ac_rfl
  · refine Eq.trans ?_ key3
    simp only [gm14_xor, gm11_xor, gm13_xor, gm9_xor, xtime_lt, gm3_lt, xor_lt256,
      ha, hb, hc, hd, h1, h2, h3, h4, h5, h6, h7, h8]
    ac_rfl


/-- Destructure a 16-byte state into its entries. -/
theorem exists_sixteen (l : List Nat) (h : l.length = 16) :
    ∃ b0 b1 b2 b3 b4 b5 b6 b7 b8 b9 b10 b11 b12 b13 b14 b15 : Nat, l = [b0, b1, b2, b3, b4, b5, b6, b7, b8, b9, b10, b11, b12, b13, b14, b15] := by
  obtain ⟨b0, l, rfl⟩ := List.exists_of_length_succ l (show l.length = 15 + 1 by omega)
  simp only [List.length_cons] at h
  obtain ⟨b1, l, rfl⟩ := List.exists_of_length_succ l (show l.length = 14 + 1 by omega)
  simp only [List.length_cons] at h
  obtain ⟨b2, l, rfl⟩ := List.exists_of_length_succ l (show l.length = 13 + 1 by omega)
  simp only [List.length_cons] at h
  obtain ⟨b3, l, rfl⟩ := List.exists_of_length_succ l (show l.length = 12 + 1 by omega)
  simp only [List.length_cons] at h
  obtain ⟨b4, l, rfl⟩ := List.exists_of_length_succ l (show l.length = 11 + 1 by omega)
  simp only [List.length_cons] at h
  obtain ⟨b5, l, rfl⟩ := List.exists_of_length_succ l (show l.length = 10 + 1 by omega)
  simp only [List.length_cons] at h
  obtain ⟨b6, l, rfl⟩ := List.exists_of_length_succ l (show l.length = 9 + 1 by omega)
  simp only [List.length_cons] at h
  obtain ⟨b7, l, rfl⟩ := List.exists_of_length_succ l (show l.length = 8 + 1 by omega)
  simp only [List.length_cons] at h
  obtain ⟨b8, l, rfl⟩ := List.exists_of_length_succ l (show l.length = 7 + 1 by omega)
  simp only [List.length_cons] at h
  obtain ⟨b9, l, rfl⟩ := List.exists_of_length_succ l (show l.length = 6 + 1 by omega)
  simp only [List.length_cons] at h
  obtain ⟨b10, l, rfl⟩ := List.exists_of_length_succ l (show l.length = 5 + 1 by omega)
  simp only [List.length_cons] at h
  obtain ⟨b11, l, rfl⟩ := List.exists_of_length_succ l (show l.length = 4 + 1 by omega)
  simp only [List.length_cons] at h
  obtain ⟨b12, l, rfl⟩ := List.exists_of_length_succ l (show l.length = 3 + 1 by omega)
  simp only [List.length_cons] at h
  obtain ⟨b13, l, rfl⟩ := List.exists_of_length_succ l (show l.length = 2 + 1 by omega)
  simp only [List.length_cons] at h
  obtain ⟨b14, l, rfl⟩ := List.exists_of_length_succ l (show l.length = 1 + 1 by omega)
  simp only [List.length_cons] at h
  obtain ⟨b15, l, rfl⟩ := List.exists_of_length_succ l (show l.length = 0 + 1 by omega)
  simp only [List.length_cons] at h
  have hnil : l = [] := List.eq_nil_of_length_eq_zero (by omega)
  subst hnil
  exact ⟨b0, b1, b2, b3, b4, b5, b6, b7, b8, b9, b10, b11, b12, b13, b14, b15, rfl⟩

theorem sboxTable_lt : ∀ i : Fin 256, sboxTable.getD i.val 0 < 256 := by decide

theorem sbox_lt (x : Nat) : sbox x < 256 :=
  sboxTable_lt ⟨x % 256, Nat.mod_lt _ (by norm_num)⟩

theorem invSbox_sbox_fin : ∀ i : Fin 256, invSbox (sbox i.val) = i.val := by decide

theorem invSbox_sbox (x : Nat) (h : x < 256) : invSbox (sbox x) = x :=
  invSbox_sbox_fin ⟨x, h⟩

theorem subBytes_length (s : List Nat) : (subBytes s).length = s.length :=
  List.length_map s sbox

theorem invSubBytes_length (s : List Nat) : (invSubBytes s).length = s.length :=
  List.length_map s invSbox

theorem subBytes_bytes (s : List Nat) : BytesLt (subBytes s) := by
  intro b hb
  obtain ⟨x, _, rfl⟩ := List.mem_map.mp hb
  exact sbox_lt x

theorem invSubBytes_subBytes (s : List Nat) (h : BytesLt s) :
    invSubBytes (subBytes s) = s := by
  induction s with
  | nil => rfl
  | cons x xs ih =>
    have hx : x < 256 := h x (List.mem_cons_self x xs)
    have hxs : BytesLt xs := fun b hb => h b (List.mem_cons_of_mem x hb)
    simp only [subBytes, invSubBytes, List.map_cons] at ih ⊢
    rw [invSbox_sbox x hx, ih hxs]

theorem xorBytes_length (a b : List Nat) :
    (xorBytes a b).length = min a.length b.length := by
  simp [xorBytes]

theorem xorBytes_cancel (a k : List Nat) (h : a.length = k.length) :
    xorBytes (xorBytes a k) k = a := by
  induction a generalizing k with
  | nil => rfl
  | cons x xs ih =>
    cases k with
    | nil => simp at h
    | cons y ys =>
      simp only [xorBytes, List.zipWith_cons_cons] at ih ⊢
      rw [Nat.xor_cancel_right, ih ys (by simpa using h)]

theorem xorBytes_bytes (a k : List Nat) (ha : BytesLt a) (hk : BytesLt k) :
    BytesLt (xorBytes a k) := by
  induction a generalizing k with
  | nil => intro b hb; cases hb
  | cons x xs ih =>
    cases k with
    | nil => intro b hb; cases hb
    | cons y ys =>
      intro b hb
      simp only [xorBytes, List.zipWith_cons_cons, List.mem_cons] at hb
      rcases hb with rfl | hb
      · exact xor_lt256 _ _ (ha x (List.mem_cons_self x xs))
          (hk y (List.mem_cons_self y ys))
      · exact ih ys (fun c hc => ha c (List.mem_cons_of_mem x hc))
          (fun c hc => hk c (List.mem_cons_of_mem y hc)) b hb


theorem shiftRows_length (s : List Nat) (h : s.length = 16) :
    (shiftRows s).length = 16 := by
  obtain ⟨b0, b1, b2, b3, b4, b5, b6, b7, b8, b9, b10, b11, b12, b13, b14, b15, rfl⟩ := exists_sixteen s h
  rfl

theorem invShiftRows_length (s : List Nat) (h : s.length = 16) :
    (invShiftRows s).length = 16 := by
  obtain ⟨b0, b1, b2, b3, b4, b5, b6, b7, b8, b9, b10, b11, b12, b13, b14, b15, rfl⟩ := exists_sixteen s h
  rfl

theorem invShiftRows_shiftRows (s : List Nat) (h : s.length = 16) :
    invShiftRows (shiftRows s) = s := by
  obtain ⟨b0, b1, b2, b3, b4, b5, b6, b7, b8, b9, b10, b11, b12, b13, b14, b15, rfl⟩ := exists_sixteen s h
  rfl

theorem shiftRows_bytes (s : List Nat) (h : s.length = 16) (hB : BytesLt s) :
    BytesLt (shiftRows s) := by
  obtain ⟨b0, b1, b2, b3, b4, b5, b6, b7, b8, b9, b10, b11, b12, b13, b14, b15, rfl⟩ := exists_sixteen s h
  simp only [BytesLt, List.mem_cons, List.not_mem_nil, or_false, forall_eq_or_imp,
    forall_eq] at hB ⊢
  simp only [shiftRows]
  simp only [BytesLt, List.mem_cons, List.not_mem_nil, or_false, forall_eq_or_imp,
    forall_eq]
  omega

theorem mixColumns_length (s : List Nat) (h : s.length = 16) :
    (mixColumns s).length = 16 := by
  obtain ⟨b0, b1, b2, b3, b4, b5, b6, b7, b8, b9, b10, b11, b12, b13, b14, b15, rfl⟩ := exists_sixteen s h
  rfl

theorem mixColumns_bytes (s : List Nat) (h : s.length = 16) (hB : BytesLt s) :
    BytesLt (mixColumns s) := by
  obtain ⟨b0, b1, b2, b3, b4, b5, b6, b7, b8, b9, b10, b11, b12, b13, b14, b15, rfl⟩ := exists_sixteen s h
  simp only [BytesLt, List.mem_cons, List.not_mem_nil, or_false, forall_eq_or_imp,
    forall_eq] at hB
  obtain ⟨h0, h1, h2, h3, h4, h5, h6, h7, h8, h9, h10, h11, h12, h13, h14, h15⟩ := hB
  simp only [mixColumns, mixCol, List.cons_append, List.nil_append]
  simp only [BytesLt, List.mem_cons, List.not_mem_nil, or_false, forall_eq_or_imp,
    forall_eq]
  repeat (first | apply And.intro | exact xtime_lt _ | apply gm3_lt | apply xor_lt256 | omega)

theorem invMixColumns_mixColumns (s : List Nat) (h : s.length = 16) (hB : BytesLt s) :
    invMixColumns (mixColumns s) = s := by
  obtain ⟨b0, b1, b2, b3, b4, b5, b6, b7, b8, b9, b10, b11, b12, b13, b14, b15, rfl⟩ := exists_sixteen s h
  simp only [BytesLt, List.mem_cons, List.not_mem_nil, or_false, forall_eq_or_imp,
    forall_eq] at hB
  obtain ⟨h0, h1, h2, h3, h4, h5, h6, h7, h8, h9, h10, h11, h12, h13, h14, h15⟩ := hB
  simp only [mixColumns, mixCol, List.cons_append, List.nil_append, invMixColumns]
  rw [invMixCol_mixCol b0 b1 b2 b3 h0 h1 h2 h3,
      invMixCol_mixCol b4 b5 b6 b7 h4 h5 h6 h7,
      invMixCol_mixCol b8 b9 b10 b11 h8 h9 h10 h11,
      invMixCol_mixCol b12 b13 b14 b15 h12 h13 h14 h15]
  rfl


theorem encStep_block16 (s rk : List Nat) (hs : Block16 s) (hrk : Block16 rk) :
    Block16 (xorBytes (mixColumns (shiftRows (subBytes s))) rk) := by
  have l1 : (subBytes s).length = 16 := by rw [subBytes_length, hs.1]
  have l2 : (shiftRows (subBytes s)).length = 16 := shiftRows_length _ l1
  have l3 : (mixColumns (shiftRows (subBytes s))).length = 16 := mixColumns_length _ l2
  constructor
  · simp [xorBytes_length, l3, hrk.1]
  · exact xorBytes_bytes _ _
      (mixColumns_bytes _ l2 (shiftRows_bytes _ l1 (subBytes_bytes s))) hrk.2

theorem decStep_encStep (s rk : List Nat) (hs : Block16 s) (hrk : Block16 rk) :
    invSubBytes (invShiftRows (invMixColumns (xorBytes
      (xorBytes (mixColumns (shiftRows (subBytes s))) rk) rk))) = s := by
  have l1 : (subBytes s).length = 16 := by rw [subBytes_length, hs.1]
  have l2 : (shiftRows (subBytes s)).length = 16 := shiftRows_length _ l1
  have l3 : (mixColumns (shiftRows (subBytes s))).length = 16 := mixColumns_length _ l2
  rw [xorBytes_cancel _ _ (by rw [l3, hrk.1])]
  rw [invMixColumns_mixColumns _ l2 (shiftRows_bytes _ l1 (subBytes_bytes s))]
  rw [invShiftRows_shiftRows _ l1]
  rw [invSubBytes_subBytes s hs.2]

theorem decRounds_append (l1 l2 : List (List Nat)) (s : List Nat) :
    decRounds (l1 ++ l2) s = decRounds l2 (decRounds l1 s) := by
  induction l1 generalizing s with
  | nil => rfl
  | cons rk rks ih => simp [decRounds, ih]

theorem encRounds_block16 (mids : List (List Nat)) (s : List Nat)
    (hm : ∀ rk ∈ mids, Block16 rk) (hs : Block16 s) : Block16 (encRounds mids s) := by
  induction mids generalizing s with
  | nil => exact hs
  | cons rk rks ih =>
    exact ih _ (fun r hr => hm r (List.mem_cons_of_mem rk hr))
      (encStep_block16 s rk hs (hm rk (List.mem_cons_self rk rks)))

theorem decRounds_encRounds (mids : List (List Nat)) (s : List Nat)
    (hm : ∀ rk ∈ mids, Block16 rk) (hs : Block16 s) :
    decRounds mids.reverse (encRounds mids s) = s := by
  induction mids generalizing s with
  | nil => rfl
  | cons rk rks ih =>
    have hrk : Block16 rk := hm rk (List.mem_cons_self rk rks)
    have hrest : ∀ r ∈ rks, Block16 r := fun r hr => hm r (List.mem_cons_of_mem rk hr)
    rw [List.reverse_cons, decRounds_append]
    have h1 : encRounds (rk :: rks) s
        = encRounds rks (xorBytes (mixColumns (shiftRows (subBytes s))) rk) := rfl
    rw [h1, ih _ hrest (encStep_block16 s rk hs hrk)]
    exact decStep_encStep s rk hs hrk

theorem aesEncryptBlock_block16 (k0 kLast : List Nat) (mids : List (List Nat))
    (b : List Nat) (hk0 : Block16 k0) (hkL : Block16 kLast)
    (hm : ∀ rk ∈ mids, Block16 rk) (hb : Block16 b) :
    Block16 (aesEncryptBlock k0 mids kLast b) := by
  unfold aesEncryptBlock
  have hu : Block16 (encRounds mids (xorBytes b k0)) := by
    apply encRounds_block16 _ _ hm
    constructor
    · simp [xorBytes_length, hb.1, hk0.1]
    · exact xorBytes_bytes _ _ hb.2 hk0.2
  have l1 : (subBytes (encRounds mids (xorBytes b k0))).length = 16 := by
    rw [subBytes_length, hu.1]
  constructor
  · simp [xorBytes_length, shiftRows_length _ l1, hkL.1]
  · exact xorBytes_bytes _ _ (shiftRows_bytes _ l1 (subBytes_bytes _)) hkL.2

/-- AES block decryption inverts AES block encryption for any round keys
made of 16-byte blocks. -/
theorem aesDecryptBlock_aesEncryptBlock (k0 kLast : List Nat)
    (mids : List (List Nat)) (b : List Nat) (hk0 : Block16 k0) (hkL : Block16 kLast)
    (hm : ∀ rk ∈ mids, Block16 rk) (hb : Block16 b) :
    aesDecryptBlock k0 mids kLast (aesEncryptBlock k0 mids kLast b) = b := by
  unfold aesEncryptBlock aesDecryptBlock
  have hx : Block16 (xorBytes b k0) := by
    constructor
    · simp [xorBytes_length, hb.1, hk0.1]
    · exact xorBytes_bytes _ _ hb.2 hk0.2
  have hu : Block16 (encRounds mids (xorBytes b k0)) := encRounds_block16 _ _ hm hx
  have l1 : (subBytes (encRounds mids (xorBytes b k0))).length = 16 := by
    rw [subBytes_length, hu.1]
  rw [xorBytes_cancel _ _ (by rw [shiftRows_length _ l1, hkL.1])]
  rw [invShiftRows_shiftRows _ l1]
  rw [invSubBytes_subBytes _ hu.2]
  rw [decRounds_encRounds mids _ hm hx]
  rw [xorBytes_cancel _ _ (by rw [hb.1, hk0.1])]


theorem exists_four (l : List Nat) (h : l.length = 4) :
    ∃ a b c d, l = [a, b, c, d] := by
  obtain ⟨a, l, rfl⟩ := List.exists_of_length_succ l (show l.length = 3 + 1 by omega)
  simp only [List.length_cons] at h
  obtain ⟨b, l, rfl⟩ := List.exists_of_length_succ l (show l.length = 2 + 1 by omega)
  simp only [List.length_cons] at h
  obtain ⟨c, l, rfl⟩ := List.exists_of_length_succ l (show l.length = 1 + 1 by omega)
  simp only [List.length_cons] at h
  obtain ⟨d, l, rfl⟩ := List.exists_of_length_succ l (show l.length = 0 + 1 by omega)
  simp only [List.length_cons] at h
  have : l = [] := List.length_eq_zero.mp (by omega)
  subst this
  exact ⟨a, b, c, d, rfl⟩

theorem getD_word (ws : List (List Nat)) (h : ∀ w ∈ ws, w.length = 4 ∧ BytesLt w)
    (i : Nat) (hi : i < ws.length) :
    (ws.getD i []).length = 4 ∧ BytesLt (ws.getD i []) := by
  rw [List.getD_eq_getElem ws [] hi]
  exact h _ (List.getElem_mem hi)

theorem rotWord_word (w : List Nat) (hw : w.length = 4) (hb : BytesLt w) :
    (rotWord w).length = 4 ∧ BytesLt (rotWord w) := by
  obtain ⟨a, b, c, d, rfl⟩ := exists_four w hw
  refine ⟨rfl, ?_⟩
  intro x hx
  apply hb
  simp only [rotWord, List.mem_cons, List.not_mem_nil, or_false] at hx ⊢
  tauto

theorem subWord_word (w : List Nat) (hw : w.length = 4) :
    (subWord w).length = 4 ∧ BytesLt (subWord w) := by
  constructor
  · rw [subWord, List.length_map, hw]
  · intro x hx
    obtain ⟨y, _, rfl⟩ := List.mem_map.mp hx
    exact sbox_lt y

theorem rcon_lt (k : Nat) : rconTable.getD k 0 < 256 := by
  by_cases h : k < 8
  · interval_cases k <;> decide
  · rw [List.getD_eq_default]
    · decide
    · show rconTable.length ≤ k
      have : rconTable.length = 8 := rfl
      omega

theorem nextWord_word (ws : List (List Nat)) (h : GoodWords ws) :
    (nextWord ws).length = 4 ∧ BytesLt (nextWord ws) := by
  obtain ⟨h8, hw⟩ := h
  have ht := getD_word ws hw (ws.length - 1) (by omega)
  have h8w := getD_word ws hw (ws.length - 8) (by omega)
  have key : ∀ t2 : List Nat, t2.length = 4 → BytesLt t2 →
      (xorBytes (ws.getD (ws.length - 8) []) t2).length = 4 ∧
        BytesLt (xorBytes (ws.getD (ws.length - 8) []) t2) := by
    intro t2 hl hb
    constructor
    · rw [xorBytes_length, h8w.1, hl]
      omega
    · exact xorBytes_bytes _ _ h8w.2 hb
  unfold nextWord
  dsimp only
  split_ifs with h1 h2
  · apply key
    · have hr := (rotWord_word _ ht.1 ht.2).1
      have hs := (subWord_word _ hr).1
      rw [xorBytes_length, hs]
      simp
    · apply xorBytes_bytes
      · exact (subWord_word _ (rotWord_word _ ht.1 ht.2).1).2
      · intro b hb
        simp only [List.mem_cons, List.not_mem_nil, or_false] at hb
        rcases hb with rfl | rfl | rfl | rfl
        · exact rcon_lt _
        all_goals omega
  · exact key _ (subWord_word _ ht.1).1 (subWord_word _ ht.1).2
  · exact key _ ht.1 ht.2

theorem keyExpandAux_good (ws : List (List Nat)) (h : GoodWords ws) (n : Nat) :
    GoodWords (keyExpandAux ws n) ∧ (keyExpandAux ws n).length = ws.length + n := by
  induction n with
  | zero => exact ⟨h, rfl⟩
  | succ n ih =>
    obtain ⟨⟨hlen, hws⟩, hcount⟩ := ih
    have hn := nextWord_word _ ⟨hlen, hws⟩
    refine ⟨⟨?_, ?_⟩, ?_⟩
    · show 8 ≤ (keyExpandAux ws n ++ [nextWord (keyExpandAux ws n)]).length
      rw [List.length_append]
      simp only [List.length_singleton]
      omega
    · intro w hwmem
      show w.length = 4 ∧ BytesLt w
      have : w ∈ keyExpandAux ws n ++ [nextWord (keyExpandAux ws n)] := hwmem
      rw [List.mem_append, List.mem_singleton] at this
      rcases this with hmem | rfl
      · exact hws w hmem
      · exact hn
    · show (keyExpandAux ws n ++ [nextWord (keyExpandAux ws n)]).length = ws.length + (n + 1)
      rw [List.length_append, hcount]
      simp only [List.length_singleton]
      omega

theorem chunksOfFuel_mem (n : Nat) (hn : 0 < n) :
    ∀ (fuel : Nat) (l : List Nat), l.length ≤ fuel → n ∣ l.length →
      ∀ c ∈ chunksOfFuel n fuel l, c.length = n ∧ ∀ b ∈ c, b ∈ l := by
  intro fuel
  induction fuel with
  | zero =>
    intro l _ _ c hc
    simp [chunksOfFuel] at hc
  | succ fuel ih =>
    intro l hle hdvd c hc
    cases l with
    | nil => simp [chunksOfFuel] at hc
    | cons x xs =>
      have hlen : n ≤ (x :: xs).length := by
        rcases hdvd with ⟨k, hk⟩
        rcases k with _ | k
        · simp at hk
        · simp only [List.length_cons] at hk ⊢
          calc n ≤ n * (k + 1) := Nat.le_mul_of_pos_right n (by omega)
          _ = xs.length + 1 := hk.symm
      rw [chunksOfFuel] at hc
      rcases List.mem_cons.mp hc with rfl | htail
      · constructor
        · rw [List.length_take]
          omega
        · intro b hb
          exact List.take_subset n _ hb
      · have hdrop : n ∣ ((x :: xs).drop n).length := by
          rw [List.length_drop]
          exact Nat.dvd_sub' hdvd dvd_rfl
        have hdl : ((x :: xs).drop n).length ≤ fuel := by
          rw [List.length_drop]
          simp only [List.length_cons] at hle ⊢
          omega
        have := ih _ hdl hdrop c htail
        exact ⟨this.1, fun b hb => List.drop_subset n _ (this.2 b hb)⟩

theorem chunksOfFuel_count (n : Nat) (hn : 0 < n) :
    ∀ (fuel : Nat) (l : List Nat), l.length ≤ fuel → n ∣ l.length →
      (chunksOfFuel n fuel l).length = l.length / n := by
  intro fuel
  induction fuel with
  | zero =>
    intro l hle _
    have : l = [] := List.length_eq_zero.mp (by omega)
    subst this
    simp [chunksOfFuel]
  | succ fuel ih =>
    intro l hle hdvd
    cases l with
    | nil => simp [chunksOfFuel]
    | cons x xs =>
      have hlen : n ≤ (x :: xs).length := by
        rcases hdvd with ⟨k, hk⟩
        rcases k with _ | k
        · simp at hk
        · simp only [List.length_cons] at hk ⊢
          calc n ≤ n * (k + 1) := Nat.le_mul_of_pos_right n (by omega)
          _ = xs.length + 1 := hk.symm
      have hdrop : n ∣ ((x :: xs).drop n).length := by
        rw [List.length_drop]
        exact Nat.dvd_sub' hdvd dvd_rfl
      have hdl : ((x :: xs).drop n).length ≤ fuel := by
        rw [List.length_drop]
        simp only [List.length_cons] at hle ⊢
        omega
      rw [chunksOfFuel, List.length_cons, ih _ hdl hdrop, List.length_drop,
        List.length_cons]
      rcases hdvd with ⟨k, hk⟩
      simp only [List.length_cons] at hk
      rcases k with _ | k
      · omega
      · rw [hk, Nat.mul_succ, Nat.add_sub_cancel, Nat.mul_div_cancel_left _ hn,
          ← Nat.mul_succ, Nat.mul_div_cancel_left _ hn]

theorem chunksOf_mem (n : Nat) (hn : 0 < n) (l : List Nat) (hdvd : n ∣ l.length) :
    ∀ c ∈ chunksOf n l, c.length = n ∧ ∀ b ∈ c, b ∈ l :=
  chunksOfFuel_mem n hn l.length l (le_refl _) hdvd

theorem chunksOf_count (n : Nat) (hn : 0 < n) (l : List Nat) (hdvd : n ∣ l.length) :
    (chunksOf n l).length = l.length / n :=
  chunksOfFuel_count n hn l.length l (le_refl _) hdvd

theorem keyWords_good (key : List Nat) (hk : key.length = 32) (hb : BytesLt key) :
    GoodWords (keyWords key) ∧ (keyWords key).length = 60 := by
  have hdvd : (4 : Nat) ∣ key.length := by rw [hk]; omega
  have h0 : GoodWords (chunksOf 4 key) := by
    constructor
    · rw [chunksOf_count 4 (by omega) key hdvd, hk]
    · intro w hw
      have := chunksOf_mem 4 (by omega) key hdvd w hw
      exact ⟨this.1, fun b hbm => hb b (this.2 b hbm)⟩
  have := keyExpandAux_good _ h0 52
  refine ⟨this.1, ?_⟩
  rw [keyWords, this.2, chunksOf_count 4 (by omega) key hdvd, hk]

theorem roundKey_block16 (ws : List (List Nat))
    (hws : ∀ w ∈ ws, w.length = 4 ∧ BytesLt w) (r : Nat)
    (hr : 4 * r + 3 < ws.length) : Block16 (roundKey ws r) := by
  have h0 := getD_word ws hws (4 * r) (by omega)
  have h1 := getD_word ws hws (4 * r + 1) (by omega)
  have h2 := getD_word ws hws (4 * r + 2) (by omega)
  have h3 := getD_word ws hws (4 * r + 3) (by omega)
  constructor
  · rw [roundKey]
    simp only [List.length_append, h0.1, h1.1, h2.1, h3.1]
  · intro b hb
    rw [roundKey] at hb
    simp only [List.mem_append] at hb
    rcases hb with ((hb | hb) | hb) | hb
    · exact h0.2 b hb
    · exact h1.2 b hb
    · exact h2.2 b hb
    · exact h3.2 b hb

theorem aesKeyTriple_good (key : List Nat) (hk : key.length = 32) (hb : BytesLt key) :
    Block16 (aesKeyTriple key).1 ∧ (∀ rk ∈ (aesKeyTriple key).2.1, Block16 rk) ∧
      Block16 (aesKeyTriple key).2.2 := by
  obtain ⟨⟨_, hws⟩, hcount⟩ := keyWords_good key hk hb
  refine ⟨roundKey_block16 _ hws 0 (by omega), ?_, roundKey_block16 _ hws 14 (by omega)⟩
  intro rk hrk
  obtain ⟨i, hi, rfl⟩ := List.mem_map.mp hrk
  rw [List.mem_range] at hi
  exact roundKey_block16 _ hws (i + 1) (by omega)


theorem chunksOfFuel_flatten (n : Nat) (hn : 0 < n) :
    ∀ (fuel : Nat) (l : List Nat), l.length ≤ fuel →
      (chunksOfFuel n fuel l).flatten = l := by
  intro fuel
  induction fuel with
  | zero =>
    intro l hle
    have : l = [] := List.length_eq_zero.mp (by omega)
    subst this
    rfl
  | succ fuel ih =>
    intro l hle
    cases l with
    | nil => rfl
    | cons x xs =>
      rw [chunksOfFuel, List.flatten_cons, ih _ (by rw [List.length_drop]; simp only [List.length_cons] at hle ⊢; omega)]
      exact List.take_append_drop n (x :: xs)

theorem chunksOf_flatten (n : Nat) (hn : 0 < n) (l : List Nat) :
    (chunksOf n l).flatten = l :=
  chunksOfFuel_flatten n hn l.length l (le_refl _)

theorem chunksOfFuel_of_blocks (n : Nat) (hn : 0 < n) :
    ∀ (bs : List (List Nat)) (fuel : Nat), bs.flatten.length ≤ fuel →
      (∀ b ∈ bs, b.length = n) → chunksOfFuel n fuel bs.flatten = bs := by
  intro bs
  induction bs with
  | nil =>
    intro fuel _ _
    cases fuel <;> rfl
  | cons b bs ih =>
    intro fuel hle hlen
    have hbn : b.length = n := hlen b (List.mem_cons_self b bs)
    cases fuel with
    | zero =>
      exfalso
      rw [List.flatten_cons, List.length_append, hbn] at hle
      omega
    | succ fuel =>
      obtain ⟨y, ys, hby⟩ : ∃ y ys, b = y :: ys := by
        cases b with
        | nil => rw [List.length_nil] at hbn; omega
        | cons y ys => exact ⟨y, ys, rfl⟩
      have hcons : (b ++ bs.flatten) = y :: (ys ++ bs.flatten) := by rw [hby]; rfl
      rw [List.flatten_cons, hcons, chunksOfFuel, ← hcons]
      have htake : (b ++ bs.flatten).take n = b := by
        rw [← hbn]
        exact List.take_left b bs.flatten
      have hdrop : (b ++ bs.flatten).drop n = bs.flatten := by
        rw [← hbn]
        exact List.drop_left b bs.flatten
      rw [htake, hdrop, ih fuel ?_ (fun c hc => hlen c (List.mem_cons_of_mem b hc))]
      rw [List.flatten_cons, List.length_append, hbn] at hle
      omega

theorem chunksOf_of_blocks (n : Nat) (hn : 0 < n) (bs : List (List Nat))
    (hlen : ∀ b ∈ bs, b.length = n) : chunksOf n bs.flatten = bs :=
  chunksOfFuel_of_blocks n hn bs bs.flatten.length (le_refl _) hlen

theorem flatten_blocks_length (n : Nat) :
    ∀ bs : List (List Nat), (∀ b ∈ bs, b.length = n) →
      bs.flatten.length = n * bs.length := by
  intro bs
  induction bs with
  | nil => intro _; rfl
  | cons b bs ih =>
    intro h
    rw [List.flatten_cons, List.length_append, h b (List.mem_cons_self b bs),
      ih (fun c hc => h c (List.mem_cons_of_mem b hc)), List.length_cons,
      Nat.mul_succ]
    omega

theorem flatten_blocks_bytes (bs : List (List Nat)) (h : ∀ b ∈ bs, BytesLt b) :
    BytesLt bs.flatten := by
  intro x hx
  obtain ⟨c, hc, hxc⟩ := List.mem_flatten.mp hx
  exact h c hc x hxc

theorem cbcEncBlocks_length (enc : List Nat → List Nat) :
    ∀ (bs : List (List Nat)) (prev : List Nat),
      (cbcEncBlocks enc prev bs).length = bs.length := by
  intro bs
  induction bs with
  | nil => intro prev; rfl
  | cons b bs ih =>
    intro prev
    rw [cbcEncBlocks, List.length_cons, List.length_cons, ih]

theorem cbcEncBlocks_block16 (enc : List Nat → List Nat)
    (henc : ∀ b, Block16 b → Block16 (enc b)) :
    ∀ (bs : List (List Nat)) (prev : List Nat), Block16 prev →
      (∀ b ∈ bs, Block16 b) →
      ∀ c ∈ cbcEncBlocks enc prev bs, Block16 c := by
  intro bs
  induction bs with
  | nil =>
    intro prev _ _ c hc
    simp [cbcEncBlocks] at hc
  | cons b bs ih =>
    intro prev hprev hbs c hc
    have hb : Block16 b := hbs b (List.mem_cons_self b bs)
    have hxb : Block16 (xorBytes b prev) := by
      refine ⟨?_, xorBytes_bytes _ _ hb.2 hprev.2⟩
      rw [xorBytes_length, hb.1, hprev.1]
      omega
    rw [cbcEncBlocks] at hc
    rcases List.mem_cons.mp hc with rfl | htail
    · exact henc _ hxb
    · exact ih _ (henc _ hxb) (fun x hx => hbs x (List.mem_cons_of_mem b hx)) c htail

theorem cbcDecBlocks_cbcEncBlocks (enc dec : List Nat → List Nat)
    (henc : ∀ b, Block16 b → Block16 (enc b))
    (hdec : ∀ b, Block16 b → dec (enc b) = b) :
    ∀ (bs : List (List Nat)) (prev : List Nat), Block16 prev →
      (∀ b ∈ bs, Block16 b) →
      cbcDecBlocks dec prev (cbcEncBlocks enc prev bs) = bs := by
  intro bs
  induction bs with
  | nil => intro prev _ _; rfl
  | cons b bs ih =>
    intro prev hprev hbs
    have hb : Block16 b := hbs b (List.mem_cons_self b bs)
    have hxb : Block16 (xorBytes b prev) := by
      refine ⟨?_, xorBytes_bytes _ _ hb.2 hprev.2⟩
      rw [xorBytes_length, hb.1, hprev.1]
      omega
    show xorBytes (dec (enc (xorBytes b prev))) prev ::
      cbcDecBlocks dec (enc (xorBytes b prev))
        (cbcEncBlocks enc (enc (xorBytes b prev)) bs) = b :: bs
    rw [hdec _ hxb, xorBytes_cancel _ _ (by rw [hb.1, hprev.1]),
      ih _ (henc _ hxb) (fun x hx => hbs x (List.mem_cons_of_mem b hx))]

theorem pad16_length (l : List Nat) :
    (pad16 l).length = l.length + (16 - l.length % 16) := by
  rw [pad16]
  simp

theorem pad16_dvd (l : List Nat) : 16 ∣ (pad16 l).length := by
  rw [pad16_length]
  have h1 : l.length % 16 < 16 := Nat.mod_lt _ (by omega)
  have h2 := Nat.div_add_mod l.length 16
  omega

theorem pad16_pos (l : List Nat) : 0 < (pad16 l).length := by
  rw [pad16_length]
  have : l.length % 16 < 16 := Nat.mod_lt _ (by omega)
  omega

theorem pad16_bytes (l : List Nat) (h : BytesLt l) : BytesLt (pad16 l) := by
  intro b hb
  rw [pad16] at hb
  rcases List.mem_append.mp hb with hbl | hbr
  · exact h b hbl
  · rw [List.eq_of_mem_replicate hbr]
    have : l.length % 16 < 16 := Nat.mod_lt _ (by omega)
    omega

theorem unpad16_pad16 (l : List Nat) : unpad16 (pad16 l) = .ok l := by
  have hlt : l.length % 16 < 16 := Nat.mod_lt _ (by omega)
  set n := 16 - l.length % 16 with hn
  have hn1 : 1 ≤ n := by omega
  have hn16 : n ≤ 16 := by omega
  have hrep : List.replicate n n ≠ ([] : List Nat) := by
    cases hc : List.replicate n n with
    | nil => rw [List.replicate_eq_nil_iff] at hc; omega
    | cons a b => simp
  have hpl : pad16 l = l ++ List.replicate n n := rfl
  have hlast : (pad16 l).getLast? = some n := by
    rw [hpl, List.getLast?_append]
    cases hc : n with
    | zero => omega
    | succ m =>
      rw [List.getLast?_replicate]
      simp
  have hlen : (pad16 l).length = l.length + n := by
    rw [hpl, List.length_append, List.length_replicate]
  rw [unpad16, hlast]
  dsimp only
  rw [if_neg (by
    simp only [Bool.or_eq_true, decide_eq_true_eq, not_or]
    rw [hlen]
    omega)]
  have hdn : (pad16 l).length - n = l.length := by omega
  have hdrop : (pad16 l).drop ((pad16 l).length - n) = List.replicate n n := by
    rw [hdn, hpl, List.drop_left]
  have htake : (pad16 l).take ((pad16 l).length - n) = l := by
    rw [hdn, hpl, List.take_left]
  rw [hdrop, htake, if_pos]
  rw [List.all_eq_true]
  intro b hbm
  rw [List.eq_of_mem_replicate hbm]
  exact beq_self_eq_true n

theorem hexDigitVal_hexDigitChar (d : Nat) (h : d < 16) :
    hexDigitVal (hexDigitChar d) = some d := by
  interval_cases d <;> decide

theorem hexCharsToBytes_encode (bs : List Nat) (h : BytesLt bs) :
    hexCharsToBytes
      ((bs.map (fun b => [hexDigitChar (b / 16), hexDigitChar (b % 16)])).flatten) = bs := by
  induction bs with
  | nil => rfl
  | cons b bs ih =>
    have hb : b < 256 := h b (List.mem_cons_self b bs)
    have h1 : b / 16 < 16 := by omega
    have h2 : b % 16 < 16 := by omega
    have hrest : BytesLt bs := fun x hx => h x (List.mem_cons_of_mem b hx)
    simp only [List.map_cons, List.flatten_cons, List.cons_append, List.nil_append]
    rw [hexCharsToBytes, hexDigitVal_hexDigitChar _ h1, hexDigitVal_hexDigitChar _ h2]
    dsimp only
    rw [ih hrest]
    congr 1
    omega

theorem hexToBytes_bytesToHex (bs : List Nat) (h : BytesLt bs) :
    hexToBytes (bytesToHex bs) = bs :=
  hexCharsToBytes_encode bs h

theorem sha256Round_length (st : List Nat) (k w : Nat) :
    (sha256Round st k w).length = st.length := by
  rcases st with _ | ⟨a, _ | ⟨b, _ | ⟨c, _ | ⟨d, _ | ⟨e, _ | ⟨f, _ | ⟨g, _ | ⟨h, _ | ⟨i, t⟩⟩⟩⟩⟩⟩⟩⟩⟩ <;> rfl

theorem foldl_rounds_length (f g : Nat → Nat) :
    ∀ (l : List Nat) (st : List Nat),
      (l.foldl (fun s i => sha256Round s (f i) (g i)) st).length = st.length := by
  intro l
  induction l with
  | nil => intro st; rfl
  | cons x xs ih =>
    intro st
    rw [List.foldl_cons, ih, sha256Round_length]

theorem sha256Compress_length (h c : List Nat) :
    (sha256Compress h c).length = h.length := by
  rw [sha256Compress]
  rw [List.length_zipWith, foldl_rounds_length]
  omega

theorem foldl_compress_length :
    ∀ (cs : List (List Nat)) (h : List Nat),
      (cs.foldl sha256Compress h).length = h.length := by
  intro cs
  induction cs with
  | nil => intro h; rfl
  | cons c cs ih =>
    intro h
    rw [List.foldl_cons, ih, sha256Compress_length]

theorem digest_flatten_facts (hs : List Nat) :
    ((hs.map (fun w => [(w >>> 24) % 256, (w >>> 16) % 256, (w >>> 8) % 256,
        w % 256])).flatten).length = 4 * hs.length ∧
      BytesLt ((hs.map (fun w => [(w >>> 24) % 256, (w >>> 16) % 256,
        (w >>> 8) % 256, w % 256])).flatten) := by
  induction hs with
  | nil => exact ⟨rfl, fun b hb => absurd hb (List.not_mem_nil b)⟩
  | cons w hs ih =>
    constructor
    · simp only [List.map_cons, List.flatten_cons, List.length_append,
        List.length_cons, List.length_nil, ih.1, List.length_cons]
      omega
    · intro b hb
      simp only [List.map_cons, List.flatten_cons] at hb
      rcases List.mem_append.mp hb with hb | hb
      · simp only [List.mem_cons, List.not_mem_nil, or_false] at hb
        rcases hb with rfl | rfl | rfl | rfl <;> exact Nat.mod_lt _ (by omega)
      · exact ih.2 b hb

theorem sha256_length (msg : List Nat) : (sha256 msg).length = 32 := by
  rw [sha256]
  rw [(digest_flatten_facts _).1, foldl_compress_length]
  rfl

theorem sha256_bytes (msg : List Nat) : BytesLt (sha256 msg) :=
  (digest_flatten_facts _).2


theorem aesCbcDecrypt_aesCbcEncrypt (key iv pt : List Nat)
    (hk : key.length = 32) (hkb : BytesLt key)
    (hiv : iv.length = 16) (hivb : BytesLt iv) (hpt : BytesLt pt) :
    aesCbcDecrypt key iv (aesCbcEncrypt key iv pt) = .ok pt := by
  obtain ⟨hk0, hmids, hkL⟩ := aesKeyTriple_good key hk hkb
  have hivB : Block16 iv := ⟨hiv, hivb⟩
  have henc : ∀ b, Block16 b →
      Block16 (aesEncryptBlock (aesKeyTriple key).1 (aesKeyTriple key).2.1
        (aesKeyTriple key).2.2 b) :=
    fun b hb => aesEncryptBlock_block16 _ _ _ b hk0 hkL hmids hb
  have hdec : ∀ b, Block16 b →
      aesDecryptBlock (aesKeyTriple key).1 (aesKeyTriple key).2.1
        (aesKeyTriple key).2.2
        (aesEncryptBlock (aesKeyTriple key).1 (aesKeyTriple key).2.1
          (aesKeyTriple key).2.2 b) = b :=
    fun b hb => aesDecryptBlock_aesEncryptBlock _ _ _ b hk0 hkL hmids hb
  have hPmem : ∀ c ∈ chunksOf 16 (pad16 pt), Block16 c := by
    intro c hc
    have := chunksOf_mem 16 (by omega) (pad16 pt) (pad16_dvd pt) c hc
    exact ⟨this.1, fun b hb => pad16_bytes pt hpt b (this.2 b hb)⟩
  have hPcount : 1 ≤ (chunksOf 16 (pad16 pt)).length := by
    rw [chunksOf_count 16 (by omega) (pad16 pt) (pad16_dvd pt)]
    have := pad16_pos pt
    rcases pad16_dvd pt with ⟨k, hkk⟩
    rw [hkk]
    rw [Nat.mul_div_cancel_left _ (show 0 < 16 by omega)]
    omega
  have hCmem : ∀ c ∈ cbcEncBlocks
      (aesEncryptBlock (aesKeyTriple key).1 (aesKeyTriple key).2.1
        (aesKeyTriple key).2.2) iv (chunksOf 16 (pad16 pt)), Block16 c :=
    fun c hc => cbcEncBlocks_block16 _ henc _ iv hivB hPmem c hc
  have hctlen : (aesCbcEncrypt key iv pt).length =
      16 * (chunksOf 16 (pad16 pt)).length := by
    rw [aesCbcEncrypt]
    rw [flatten_blocks_length 16 _ (fun b hb => (hCmem b hb).1),
      cbcEncBlocks_length]
  rw [aesCbcDecrypt, if_neg (by
    simp only [Bool.or_eq_true, beq_iff_eq, bne_iff_ne, ne_eq, not_or, not_not]
    rw [hctlen]
    constructor
    · omega
    · omega)]
  dsimp only
  have hchunks : chunksOf 16 (aesCbcEncrypt key iv pt) =
      cbcEncBlocks (aesEncryptBlock (aesKeyTriple key).1 (aesKeyTriple key).2.1
        (aesKeyTriple key).2.2) iv (chunksOf 16 (pad16 pt)) := by
    rw [aesCbcEncrypt]
    exact chunksOf_of_blocks 16 (by omega) _ (fun b hb => (hCmem b hb).1)
  rw [hchunks]
  rw [cbcDecBlocks_cbcEncBlocks _ _ henc hdec _ iv hivB hPmem]
  rw [chunksOf_flatten 16 (by omega) (pad16 pt)]
  exact unpad16_pad16 pt

theorem aesCbcEncrypt_bytes (key iv pt : List Nat)
    (hk : key.length = 32) (hkb : BytesLt key)
    (hiv : iv.length = 16) (hivb : BytesLt iv) (hpt : BytesLt pt) :
    BytesLt (aesCbcEncrypt key iv pt) := by
  obtain ⟨hk0, hmids, hkL⟩ := aesKeyTriple_good key hk hkb
  have henc : ∀ b, Block16 b →
      Block16 (aesEncryptBlock (aesKeyTriple key).1 (aesKeyTriple key).2.1
        (aesKeyTriple key).2.2 b) :=
    fun b hb => aesEncryptBlock_block16 _ _ _ b hk0 hkL hmids hb
  have hPmem : ∀ c ∈ chunksOf 16 (pad16 pt), Block16 c := by
    intro c hc
    have := chunksOf_mem 16 (by omega) (pad16 pt) (pad16_dvd pt) c hc
    exact ⟨this.1, fun b hb => pad16_bytes pt hpt b (this.2 b hb)⟩
  rw [aesCbcEncrypt]
  apply flatten_blocks_bytes
  intro b hb
  exact (cbcEncBlocks_block16 _ henc _ iv ⟨hiv, hivb⟩ hPmem b hb).2

/-- C9 (amended): for every nsec byte string, passphrase and 16-byte IV,
decrypting the output of encryptNsec with the same passphrase returns the
nsec. The second half of the claim (decryption under a different
passphrase always fails) is refuted by the counterexample below; it holds
only up to accidental PKCS#7 validation of the garbage plaintext. -/
theorem decryptNsec_encryptNsec (nsec passphrase iv : List Nat)
    (hn : BytesLt nsec) (hiv : iv.length = 16) (hivb : BytesLt iv) :
    decryptNsec (encryptNsec nsec passphrase iv).iv
      (encryptNsec nsec passphrase iv).data passphrase = .ok nsec := by
  show aesCbcDecrypt (sha256 passphrase)
    (hexToBytes (bytesToHex iv))
    (hexToBytes (bytesToHex (aesCbcEncrypt (sha256 passphrase) iv nsec))) = .ok nsec
  rw [hexToBytes_bytesToHex iv hivb,
    hexToBytes_bytesToHex _ (aesCbcEncrypt_bytes _ _ _ (sha256_length passphrase)
      (sha256_bytes passphrase) hiv hivb hn)]
  exact aesCbcDecrypt_aesCbcEncrypt _ _ _ (sha256_length passphrase)
    (sha256_bytes passphrase) hiv hivb hn


/-- Witness: the round trip theorem applied at a concrete nsec,
passphrase and IV. -/
theorem decryptNsec_encryptNsec_witness :
    BytesLt c9nsec ∧ c9ivBytes.length = 16 ∧ BytesLt c9ivBytes ∧
      decryptNsec (encryptNsec c9nsec c9pass c9ivBytes).iv
        (encryptNsec c9nsec c9pass c9ivBytes).data c9pass = .ok c9nsec :=
  ⟨by decide, by decide, by decide,
    decryptNsec_encryptNsec c9nsec c9pass c9ivBytes (by decide) (by decide)
      (by decide)⟩

/-- Counterexample to "decrypting with a different passphrase fails": the
ciphertext of a real nsec under "correct horse battery staple" decrypts
without error under the wrong passphrase "wrong203", yielding garbage
bytes instead of a thrown error, because the last garbage byte happens to
form a valid PKCS#7 pad. -/
theorem decryptNsec_wrong_passphrase_ok_cex :
    decryptNsec (encryptNsec c9nsec c9pass c9ivBytes).iv
      (encryptNsec c9nsec c9pass c9ivBytes).data c9wrong = .ok c9garbage ∧
    c9garbage ≠ c9nsec := by
  constructor
  · rfl
  · decide


end NsecBunker
